import Mathlib

/-!
Verification development for the dott MUD server core: the in-memory object
store (`src/server/objects/in_memory_store.py`), the base object model
(`src/game/parents/base_objects/base.py`), the command handler
(`src/daemons/server/commands/handler.py`) and the staff commands
(`src/game/commands/staff.py`).

Conventions of the shallow embedding:
* A world object's `_odata` document is the structure `Obj`.  Object ids
  ("dbrefs") are stored by CouchDB as the decimal string of an integer; the
  store keeps exactly one live instance per id and every `location` /
  `zone` / `destination` property returns that instance, so Python's
  instance-identity comparisons (`omatch.location == obj`) coincide with
  id comparison for store-resident objects, and we model ids as `Nat`.
* Exceptions (`InvalidObjectId`, `KeyError`, `AttributeError`,
  `IndexError`) are modelled with `Except String`.
* The fuzzywuzzy `fuzz.partial_ratio` scorer is an external C library; it
  is passed in as an abstract parameter `scorer : String → String → Nat`
  producing a 0-100 score.
-/

deriving instance DecidableEq for Except

/-- A command definition entry as held by a command table; `cid`
distinguishes distinct definitions registered under the same verb. -/
structure CommandDef where
  cname : String
  caliases : List String
  cid : Nat
deriving Repr, DecidableEq

/-- A command table: ordered mapping from verb/alias to command definition. -/
structure CommandTable where
  commands : List CommandDef
deriving Repr, DecidableEq

/-- The `_odata` document of a world object together with the class-level
command tables of its parent class.  `baseType` is the `base_type` property
of the parent class (`room` / `player` / `exit` / `thing`); `isAdminF` is
the value of `is_admin()` (False in `BaseObject`, True only for the admin
player variant); `destinationId` is the exit-only destination reference. -/
structure Obj where
  oid : Nat
  name : String
  aliases : List String
  baseType : String
  locationId : Option Nat := none
  zoneId : Option Nat := none
  destinationId : Option Nat := none
  isAdminF : Bool := false
  localTable : Option CommandTable := none
  localAdminTable : Option CommandTable := none
deriving Repr, DecidableEq

/-- The `InMemoryObjectStore`: `objs` is the `_objects` dict (one instance
per id), `nextDbref` is the private `__next_dbref` counter. -/
structure Store where
  objs : List Obj
  nextDbref : Nat
deriving Repr, DecidableEq

/-- The id list of the store's live objects (the keys of `_objects`). -/
def oidList (s : Store) : List Nat := s.objs.map (fun x => x.oid)

/-- `InMemoryObjectStore.get_object`: raises `InvalidObjectId` when no
object with the requested id is cached. -/
def getObject (s : Store) (i : Nat) : Except String Obj :=
  match s.objs.find? (fun x => x.oid == i) with
  | some o => Except.ok o
  | none => Except.error "InvalidObjectId"

/-- `get_object` keyed by the raw CouchDB string key (`self._objects[str(obj_id)]`);
used by `_find_object_id_match`, whose key is the substring after `#`. -/
def getObjectByKey (s : Store) (key : String) : Except String Obj :=
  match s.objs.find? (fun x => toString x.oid == key) with
  | some o => Except.ok o
  | none => Except.error "InvalidObjectId"

/-- `InMemoryObjectStore.save_object`: `self._objects[odata['_id']] = obj` —
replace the cached instance when the id is present, insert it otherwise. -/
def saveObject (s : Store) (o : Obj) : Store :=
  if s.objs.any (fun x => x.oid == o.oid) then
    { s with objs := s.objs.map (fun x => if x.oid == o.oid then o else x) }
  else
    { s with objs := s.objs ++ [o] }

/-- `InMemoryObjectStore.destroy_object`: `del self._db[obj.id]` and
`del self._objects[obj.id]`; `del` on a missing key raises `KeyError`. -/
def destroyObject (s : Store) (i : Nat) : Except String Store :=
  if s.objs.any (fun x => x.oid == i) then
    Except.ok { s with objs := s.objs.filter (fun x => x.oid != i) }
  else
    Except.error "KeyError"

/-- `BaseObject.get_location`: `None` when `location_id` is unset, otherwise
`self._object_store.get_object(loc_id)` (which may raise). -/
def getLocation (s : Store) (o : Obj) : Except String (Option Obj) :=
  match o.locationId with
  | none => Except.ok none
  | some l => do
      let x ← getObject s l
      Except.ok (some x)

/-- `BaseObject.get_zone`: `None` when `zone_id` is unset, otherwise
`self._object_store.get_object(zone_id)`. -/
def getZone (s : Store) (o : Obj) : Except String (Option Obj) :=
  match o.zoneId with
  | none => Except.ok none
  | some z => do
      let x ← getObject s z
      Except.ok (some x)

/-- Modelled from the spec: `ExitObject`'s `destination` property is not
under src/ (only its callers are).  Per §3, `destination_id` is an optional
reference and an unset destination is a valid unlinked state; like the
`location` / `zone` properties it resolves through the store. -/
def getDestination (s : Store) (o : Obj) : Except String (Option Obj) :=
  match o.destinationId with
  | none => Except.ok none
  | some d => do
      let x ← getObject s d
      Except.ok (some x)

/-- Body of `InMemoryObjectStore.get_object_contents`: the list
comprehension `[omatch for omatch in self._objects.values()
if omatch.location == obj]`, iterating over the given list. -/
def contentsAux (s : Store) (i : Nat) : List Obj → Except String (List Obj)
  | [] => Except.ok []
  | x :: rest => do
      let loc ← getLocation s x
      let tail ← contentsAux s i rest
      match loc with
      | some l => if l.oid == i then Except.ok (x :: tail) else Except.ok tail
      | none => Except.ok tail

/-- `InMemoryObjectStore.get_object_contents` (also `BaseObject.get_contents`). -/
def getObjectContents (s : Store) (o : Obj) : Except String (List Obj) :=
  contentsAux s o.oid s.objs

/-- Loop body of `InMemoryObjectStore.find_objects_in_zone`: collect every
object whose `zone` resolves to an object with the given id. -/
def zoneAux (s : Store) (i : Nat) : List Obj → Except String (List Obj)
  | [] => Except.ok []
  | x :: rest => do
      let z ← getZone s x
      let tail ← zoneAux s i rest
      match z with
      | some w => if w.oid == i then Except.ok (x :: tail) else Except.ok tail
      | none => Except.ok tail

/-- `InMemoryObjectStore.find_objects_in_zone`. -/
def findObjectsInZone (s : Store) (o : Obj) : Except String (List Obj) :=
  zoneAux s o.oid s.objs

/-- Loop body of `InMemoryObjectStore.find_exits_linked_to_obj`: skip
non-exits, resolve the exit's destination, collect it on an id match. -/
def linkedAux (s : Store) (i : Nat) : List Obj → Except String (List Obj)
  | [] => Except.ok []
  | x :: rest =>
      if x.baseType == "exit" then do
        let d ← getDestination s x
        let tail ← linkedAux s i rest
        match d with
        | some w => if w.oid == i then Except.ok (x :: tail) else Except.ok tail
        | none => Except.ok tail
      else linkedAux s i rest

/-- `InMemoryObjectStore.find_exits_linked_to_obj`: returns `[]` outright
when the argument is itself an exit ("Exits can't be linked to one
another"), otherwise scans all objects. -/
def findExitsLinkedToObj (s : Store) (o : Obj) : Except String (List Obj) :=
  if o.baseType == "exit" then Except.ok [] else linkedAux s o.oid s.objs

/-- The zone-unsetting loop of `BaseObject.destroy`: for each member,
`obj.zone = None; obj.save()`. -/
def clearZones (s : Store) (ms : List Obj) : Store :=
  ms.foldl (fun t m => saveObject t { m with zoneId := none }) s

/-- Sequential destruction of a list of objects (the
`for exit in ...: exit.destroy()` loop), threading the store. -/
def destroyListAux (f : Store → Obj → Except String Store) :
    Store → List Obj → Except String Store
  | s, [] => Except.ok s
  | s, e :: rest => do
      let s1 ← f s e
      destroyListAux f s1 rest

/-- `BaseObject.destroy` with explicit recursion fuel: destroy every exit
linked to this object, un-set the zones of all zone members, then remove
the object itself.  The linked exits are themselves exits, for which
`find_exits_linked_to_obj` returns `[]`, so the recursion depth never
exceeds 2 and `destroy` below runs it with fuel 2. -/
def destroyFuel : Nat → Store → Obj → Except String Store
  | 0, _, _ => Except.error "RecursionError"
  | n + 1, s, o => do
      let es ← findExitsLinkedToObj s o
      let s1 ← destroyListAux (destroyFuel n) s es
      let ms ← findObjectsInZone s1 o
      destroyObject (clearZones s1 ms) o.oid

/-- `BaseObject.destroy`. -/
def destroy (s : Store) (o : Obj) : Except String Store := destroyFuel 2 s o

/-- `InMemoryObjectStore.create_object`: instantiate with
`_id = '%s' % self.__next_dbref`, save, then increment the counter.
`tmpl` carries the parent path and keyword fields; the id is overwritten
with the counter value. -/
def createObject (s : Store) (tmpl : Obj) : Store × Obj :=
  let o := { tmpl with oid := s.nextDbref }
  let s1 := saveObject s o
  ({ s1 with nextDbref := s.nextDbref + 1 }, o)

/-- `BaseObject.set_location` (object argument): a no-op for rooms
("Rooms can't have locations"), otherwise store the destination's id. -/
def setLocation (o : Obj) (dest : Obj) : Obj :=
  if o.baseType == "room" then o else { o with locationId := some dest.oid }

/-- `BaseObject.move_to`: read the old location (raising `AttributeError`
when it is `None`, since `None.before_object_leaves_event` is called),
fire the before-hooks (the default `before_object_enters_event` iterates
the destination's contents to emit arrival lines), mutate the location,
save, fire the after-hooks (the default `after_object_leaves_event`
iterates the old location's post-move contents).  The hooks only emit;
the final `look` is executed through the command handler, whose errback
chain absorbs any error, so neither mutates the store. -/
def moveTo (s : Store) (mover : Obj) (dest : Obj) : Except String Store := do
  let oldLoc ← getLocation s mover
  match oldLoc with
  | none => Except.error "AttributeError"
  | some old => do
      let _ ← getObjectContents s dest
      let s1 := saveObject s (setLocation mover dest)
      let _ ← getObjectContents s1 old
      Except.ok s1

/-- Python `str.lower()` (character-wise; the game's names, aliases and
verbs are ASCII, where this agrees with Unicode lowering). -/
def pyLower (s : String) : String := String.mk (s.data.map Char.toLower)

/-- Python slicing `s[n:]`. -/
def pyDrop (s : String) (n : Nat) : String := String.mk (s.data.drop n)

/-- Case-insensitive alias test of `_find_name_or_alias_match`:
`desc.lower() in [alias.lower() for alias in obj.aliases]`. -/
def aliasHit (desc : String) (o : Obj) : Bool :=
  (o.aliases.map (fun a => pyLower a)).contains (pyLower desc)

/-- Loop of `BaseObject._find_name_or_alias_match`, carrying the running
best fuzzy ratio and result: an alias match returns immediately; otherwise
a fuzzy score above 50 and above the running best becomes the new result. -/
def findNameOrAliasMatchAux (scorer : String → String → Nat) (desc : String) :
    List Obj → Nat → Option Obj → Option Obj
  | [], _, result => result
  | o :: rest, best, result =>
    if aliasHit desc o then some o
    else
      let v := scorer desc o.name
      if v > 50 ∧ v > best then findNameOrAliasMatchAux scorer desc rest v (some o)
      else findNameOrAliasMatchAux scorer desc rest best result

/-- `BaseObject._find_name_or_alias_match` (`ratio = 0`, `result = None`). -/
def findNameOrAliasMatch (scorer : String → String → Nat) (objects : List Obj)
    (desc : String) : Option Obj :=
  findNameOrAliasMatchAux scorer desc objects 0 none

/-- `BaseObject._find_object_id_match`: resolve `desc[1:]` as an absolute
id (raising `InvalidObjectId` when absent), then apply the non-admin
visibility rule.  The Python fall-throughs without a `return` statement
yield `None`. -/
def findObjectIdMatch (s : Store) (inv : Obj) (desc : String) :
    Except String (Option Obj) := do
  let obj ← getObjectByKey s (pyDrop desc 1)
  if inv.isAdminF then Except.ok (some obj)
  else do
    let invLoc ← getLocation s inv
    let objLoc ← (match invLoc with
      | some _ => getLocation s obj
      | none => Except.ok none)
    match invLoc, objLoc with
    | some il, some ol =>
        if il.oid == ol.oid || il.oid == obj.oid then Except.ok (some obj)
        else Except.ok none
    | _, _ =>
        if obj.baseType == "room" then
          match invLoc with
          | some il => if il.oid == obj.oid then Except.ok (some obj) else Except.ok none
          | none => Except.ok none
        else Except.ok none

/-- Python's whitespace class for `str.strip()`. -/
def isPySpace (c : Char) : Bool :=
  c == ' ' || c == '\t' || c == '\n' || c == '\r' || c == '\x0b' || c == '\x0c'

/-- Python `str.strip()`: drop whitespace from both ends. -/
def pyStrip (s : String) : String :=
  String.mk ((((s.data.dropWhile isPySpace).reverse).dropWhile isPySpace).reverse)

/-- Python string indexing `s[i]`, raising `IndexError` out of bounds. -/
def charAtE (s : String) (i : Nat) : Except String Char :=
  match s.data.get? i with
  | some c => Except.ok c
  | none => Except.error "IndexError"

/-- The remainder of `BaseObject.contextual_object_search` after the `#id`
sigil branch has fallen through: the `me` / `here` keywords, then
alias/fuzzy matching over the current location's contents, and finally
over the invoker's own contents. -/
def searchFallThrough (scorer : String → String → Nat) (s : Store)
    (inv : Obj) (desc : String) : Except String (Option Obj) :=
  if pyLower desc == "me" then Except.ok (some inv)
  else if pyLower desc == "here" then getLocation s inv
  else do
    let invLoc ← getLocation s inv
    let neighborMatch ← (match invLoc with
      | some l => do
          let cont ← getObjectContents s l
          Except.ok (findNameOrAliasMatch scorer cont desc)
      | none => Except.ok none)
    match neighborMatch with
    | some m => Except.ok (some m)
    | none => do
        let cont ← getObjectContents s inv
        Except.ok (findNameOrAliasMatch scorer cont desc)

/-- `BaseObject.contextual_object_search`: strip the input, return `None`
on an empty result, try the `#id` sigil branch (whose result, when `None`,
falls through to `searchFallThrough`). -/
def contextualObjectSearch (scorer : String → String → Nat) (s : Store)
    (inv : Obj) (descRaw : String) : Except String (Option Obj) :=
  let desc := pyStrip descRaw
  if desc.data.isEmpty then Except.ok none
  else do
    let c0 ← charAtE desc 0
    if c0 == '#' then do
      let fstep ← findObjectIdMatch s inv desc
      match fstep with
      | some o => Except.ok (some o)
      | none => searchFallThrough scorer s inv desc
    else searchFallThrough scorer s inv desc

/-- Modelled from the spec: §4.5 `CommandTable.lookup_command` is not under
src/ (only the handler calling it is) — exact match on the verb or any
declared alias, case-insensitive, no partial matching, first entry wins. -/
def lookupCommand (t : CommandTable) (verb : String) : Option CommandDef :=
  t.commands.find? (fun c =>
    pyLower c.cname == pyLower verb ||
      (c.caliases.map (fun a => pyLower a)).contains (pyLower verb))

/-- `CommandHandler._match_user_input_to_command`: `result` starts as
`None`; the per-location admin table is consulted when the invoker has a
location carrying one and the invoker is an admin; each later table is
consulted only while `result` is still `None`: the location's table, the
global admin table (admins only), the global table. -/
def matchUserInputToCommand (gat gt : CommandTable) (s : Store) (inv : Obj)
    (verb : String) : Except String (Option CommandDef) := do
  let loc ← getLocation s inv
  let r1 : Option CommandDef :=
    match loc with
    | some l =>
        match l.localAdminTable with
        | some t => if inv.isAdminF then lookupCommand t verb else none
        | none => none
    | none => none
  let r2 : Option CommandDef :=
    match r1 with
    | some c => some c
    | none =>
        match loc with
        | some l =>
            match l.localTable with
            | some t => lookupCommand t verb
            | none => none
        | none => none
  let r3 : Option CommandDef :=
    match r2 with
    | some c => some c
    | none => if inv.isAdminF then lookupCommand gat verb else none
  let r4 : Option CommandDef :=
    match r3 with
    | some c => some c
    | none => lookupCommand gt verb
  Except.ok r4

/-- Modelled from the spec: §4.6(3) — "try, in fixed order, (a) invoker's
location's local admin table if invoker is admin, (b) the location's local
table, (c) global admin table if invoker is admin, (d) global table.
First non-empty result wins; no merging across tables." -/
def specOrderedLookup (gat gt : CommandTable) (loc : Option Obj) (inv : Obj)
    (verb : String) : Option CommandDef :=
  (match loc with
   | some l =>
       if inv.isAdminF then l.localAdminTable.bind (fun t => lookupCommand t verb)
       else none
   | none => none) <|>
  (match loc with
   | some l => l.localTable.bind (fun t => lookupCommand t verb)
   | none => none) <|>
  (if inv.isAdminF then lookupCommand gat verb else none) <|>
  lookupCommand gt verb

/-- Modelled from the spec: §4.1 — the non-cascading destroy path "fails
with `ObjectHasZoneMembersError` if the object still has zone members";
the store that raises it is not under src/ (only `CmdDestroy`, which
catches `ObjectHasZoneMembers`, is).  When the zone is empty it performs
the §3 cascading destroy. -/
def destroyNonCascading (s : Store) (o : Obj) : Except String Store := do
  let ms ← findObjectsInZone s o
  if ms.isEmpty then destroy s o
  else Except.error "ObjectHasZoneMembers"

/-- Modelled from the spec: §4.1 `emptyZone` — "clears `zone_id` on all
current members, persists each, returns the cleared set"; the
`empty_out_zone` store method invoked by `@zmo/empty` is not under src/. -/
def emptyZone (s : Store) (o : Obj) : Except String (Store × List Obj) := do
  let ms ← findObjectsInZone s o
  Except.ok (clearZones s ms, ms)

/-- One operation of a create/destroy sequence against the store. -/
inductive StoreOp
  | create (tmpl : Obj)
  | destroyOp (o : Obj)

/-- Run a sequence of create/destroy operations from a starting store and
collect the ids assigned by the create calls, in order.  A destroy that
raises leaves the model store unchanged; in the code a failed destroy can
leave `_objects` partially mutated, but no path of `destroy_object` or
`destroy` ever touches the private `__next_dbref` counter, which is all
the id-assignment claim depends on. -/
def runAssigned : Store → List StoreOp → List Nat
  | _, [] => []
  | s, StoreOp.create t :: rest =>
      let p := createObject s t
      p.2.oid :: runAssigned p.1 rest
  | s, StoreOp.destroyOp o :: rest =>
      match destroy s o with
      | Except.ok t => runAssigned t rest
      | Except.error _ => runAssigned s rest

/-- Observable effects of the command handler's failure path. -/
inductive Effect
  | emitTo (oid : Nat) (msg : String)
  | logErr (msg : String)
deriving Repr, DecidableEq

/-- Parameters of `BaseObject.get_appearance_name` after `self`:
`def get_appearance_name(self, invoker)`. -/
def baseGetAppearanceNameParams : List String := ["invoker"]

/-- Python call compatibility: a call with `pos` positional arguments and
the given keyword names raises `TypeError` unless every keyword is a
declared parameter and the positionals fit. -/
def pyCallOk (params : List String) (pos : Nat) (kwargs : List String) : Bool :=
  kwargs.all (fun k => params.contains k) && decide (pos ≤ params.length)

/-- The `TypeError` raised when `CommandHandler._handle_other_errors` calls
`invoker.get_appearance_name(None, force_admin_view=True)` against the
`BaseObject.get_appearance_name(self, invoker)` signature. -/
def appearanceKwargError : String :=
  "TypeError: get_appearance_name got an unexpected keyword argument"

/-- `CommandHandler._handle_other_errors`: emit the generic critical-error
notice and the traceback to the invoker, log the generic line, then log
the invoker identity line — whose argument expression
`invoker.get_appearance_name(None, force_admin_view=True)` is evaluated
first and raises inside the errback when the signature rejects it.
Returns the effects actually performed and the failure passed on to the
final `log.err` errback (the process-level diagnostic sink): the original
failure re-raised by `failure.trap()` on the intact path, or the
`TypeError` that replaced it. -/
def handleOtherErrors (inv : Obj) (failureTb : String) : List Effect × String :=
  let e1 := Effect.emitTo inv.oid
    "ERROR: A critical error has occurred. Please notify the staff."
  let e2 := Effect.emitTo inv.oid failureTb
  let e3 := Effect.logErr "Command handler encountered an error"
  if pyCallOk baseGetAppearanceNameParams 1 ["force_admin_view"] then
    ([e1, e2, e3, Effect.logErr ("Invoker: " ++ inv.name)], failureTb)
  else
    ([e1, e2, e3], appearanceKwargError)

/-- The errback chain installed by `CommandHandler.handle_input` on a
failing command: `_handle_command_error` traps a declared `CommandError`
and emits only its message; any other failure falls through to
`_handle_other_errors` and then to the console `log.err` sink, which
records whatever failure reaches it. -/
def commandFailureChain (inv : Obj) (isCmdErr : Bool) (msg failureTb : String) :
    List Effect :=
  if isCmdErr then [Effect.emitTo inv.oid msg]
  else
    let p := handleOtherErrors inv failureTb
    p.1 ++ [Effect.logErr ("console: " ++ p.2)]

lemma bindE_ok {α β : Type} {x : Except String α} {f : α → Except String β} {b : β}
    (h : (x >>= f) = Except.ok b) : ∃ a, x = Except.ok a ∧ f a = Except.ok b := by
  cases x with
  | error e => simp [Bind.bind, Except.bind] at h
  | ok a => exact ⟨a, rfl, by simpa [Bind.bind, Except.bind] using h⟩

lemma bindE_ok_of {α β : Type} {x : Except String α} {f : α → Except String β}
    {a : α} (hx : x = Except.ok a) : (x >>= f) = f a := by
  subst hx; rfl

lemma getObject_oid {s : Store} {i : Nat} {w : Obj}
    (h : getObject s i = Except.ok w) : w.oid = i := by
  unfold getObject at h
  cases hf : s.objs.find? (fun x => x.oid == i) with
  | none => rw [hf] at h; exact absurd h (by simp)
  | some o =>
      rw [hf] at h
      cases h
      have := List.find?_some hf
      simpa using this

lemma getObject_mem {s : Store} {i : Nat} {w : Obj}
    (h : getObject s i = Except.ok w) : w ∈ s.objs := by
  unfold getObject at h
  cases hf : s.objs.find? (fun x => x.oid == i) with
  | none => rw [hf] at h; exact absurd h (by simp)
  | some o =>
      rw [hf] at h
      cases h
      exact List.mem_of_find?_eq_some hf

lemma getObject_ok_of_mem {s : Store} {i : Nat}
    (h : i ∈ oidList s) : ∃ w, getObject s i = Except.ok w ∧ w.oid = i := by
  unfold oidList at h
  obtain ⟨x, hx, hox⟩ := List.mem_map.mp h
  have hsome : (s.objs.find? (fun x => x.oid == i)).isSome := by
    rw [List.find?_isSome]
    exact ⟨x, hx, by simpa using hox⟩
  cases hf : s.objs.find? (fun x => x.oid == i) with
  | none => rw [hf] at hsome; simp at hsome
  | some w =>
      refine ⟨w, ?_, ?_⟩
      · unfold getObject; rw [hf]
      · have := List.find?_some hf
        simpa using this

lemma saveObject_nextDbref (s : Store) (o : Obj) :
    (saveObject s o).nextDbref = s.nextDbref := by
  unfold saveObject; split <;> rfl

lemma saveObject_oidList {s : Store} {o : Obj} (h : o.oid ∈ oidList s) :
    oidList (saveObject s o) = oidList s := by
  unfold saveObject
  have hany : s.objs.any (fun x => x.oid == o.oid) = true := by
    rw [List.any_eq_true]
    obtain ⟨x, hx, hox⟩ := List.mem_map.mp h
    exact ⟨x, hx, by simpa using hox⟩
  rw [if_pos hany]
  unfold oidList
  simp only [List.map_map]
  apply List.map_congr_left
  intro x _
  simp only [Function.comp]
  by_cases hx : x.oid = o.oid
  · simp [hx]
  · simp [hx]

lemma saveObject_mem {s : Store} {o y : Obj} (h : y ∈ (saveObject s o).objs) :
    y = o ∨ (y ∈ s.objs ∧ y.oid ≠ o.oid) := by
  unfold saveObject at h
  by_cases hany : s.objs.any (fun x => x.oid == o.oid) = true
  · rw [if_pos hany] at h
    simp only [List.mem_map] at h
    obtain ⟨x, hx, hxy⟩ := h
    by_cases hox : (x.oid == o.oid) = true
    · rw [if_pos hox] at hxy; exact Or.inl hxy.symm
    · rw [if_neg hox] at hxy
      subst hxy
      exact Or.inr ⟨hx, by simpa using hox⟩
  · rw [if_neg hany] at h
    rcases List.mem_append.mp h with h1 | h1
    · refine Or.inr ⟨h1, ?_⟩
      intro he
      apply hany
      rw [List.any_eq_true]
      exact ⟨y, h1, by simpa using he⟩
    · exact Or.inl (by simpa using h1)

lemma saveObject_mem_self {s : Store} {o : Obj} (h : o.oid ∈ oidList s) :
    o ∈ (saveObject s o).objs := by
  unfold saveObject
  have hany : s.objs.any (fun x => x.oid == o.oid) = true := by
    rw [List.any_eq_true]
    obtain ⟨x, hx, hox⟩ := List.mem_map.mp h
    exact ⟨x, hx, by simpa using hox⟩
  rw [if_pos hany]
  simp only [List.mem_map]
  obtain ⟨x, hx, hox⟩ := List.mem_map.mp h
  exact ⟨x, hx, by simp [hox]⟩

lemma saveObject_eq_of_oid {s : Store} {o y : Obj}
    (h : y ∈ (saveObject s o).objs) (hoid : y.oid = o.oid) : y = o := by
  rcases saveObject_mem h with h1 | h1
  · exact h1
  · exact absurd hoid h1.2

lemma destroyObject_spec {s : Store} {i : Nat} {t : Store}
    (h : destroyObject s i = Except.ok t) :
    t.objs = s.objs.filter (fun x => x.oid != i) ∧ i ∈ oidList s ∧
      t.nextDbref = s.nextDbref := by
  unfold destroyObject at h
  by_cases hany : s.objs.any (fun x => x.oid == i) = true
  · rw [if_pos hany] at h
    cases h
    refine ⟨rfl, ?_, rfl⟩
    rw [List.any_eq_true] at hany
    obtain ⟨x, hx, hox⟩ := hany
    exact List.mem_map.mpr ⟨x, hx, by simpa using hox⟩
  · rw [if_neg hany] at h
    exact absurd h (by simp)

lemma destroyObject_oidList {s : Store} {i : Nat} {t : Store}
    (h : destroyObject s i = Except.ok t) :
    oidList t = (oidList s).filter (fun j => j != i) := by
  obtain ⟨ht, _, _⟩ := destroyObject_spec h
  unfold oidList
  rw [ht]
  induction s.objs with
  | nil => rfl
  | cons x rest ih =>
      by_cases hx : (x.oid != i) = true
      · simp [List.filter_cons, hx, ih]
      · simp [List.filter_cons, hx, ih]

lemma destroyObject_subset {s : Store} {i : Nat} {t : Store}
    (h : destroyObject s i = Except.ok t) {y : Obj} (hy : y ∈ t.objs) :
    y ∈ s.objs := by
  obtain ⟨ht, _, _⟩ := destroyObject_spec h
  rw [ht] at hy
  exact (List.mem_filter.mp hy).1

lemma clearZones_nextDbref (s : Store) (ms : List Obj) :
    (clearZones s ms).nextDbref = s.nextDbref := by
  induction ms generalizing s with
  | nil => rfl
  | cons m rest ih =>
      unfold clearZones at *
      simp only [List.foldl_cons]
      rw [ih]
      exact saveObject_nextDbref s _

lemma clearZones_oidList {s : Store} {ms : List Obj}
    (h : ∀ m ∈ ms, m.oid ∈ oidList s) :
    oidList (clearZones s ms) = oidList s := by
  induction ms generalizing s with
  | nil => rfl
  | cons m rest ih =>
      unfold clearZones at *
      simp only [List.foldl_cons]
      have h1 : ({ m with zoneId := none } : Obj).oid ∈ oidList s := h m (by simp)
      rw [ih, saveObject_oidList h1]
      intro m' hm'
      rw [saveObject_oidList h1]
      exact h m' (by simp [hm'])

lemma clearZones_mem {s : Store} {ms : List Obj} {y : Obj}
    (h : y ∈ (clearZones s ms).objs) :
    (∃ m ∈ ms, y = { m with zoneId := none }) ∨
      (y ∈ s.objs ∧ ∀ m ∈ ms, y.oid ≠ m.oid) := by
  induction ms generalizing s with
  | nil => exact Or.inr ⟨h, by simp⟩
  | cons m rest ih =>
      unfold clearZones at h
      simp only [List.foldl_cons] at h
      rcases ih (s := saveObject s { m with zoneId := none }) h with h1 | h1
      · obtain ⟨m', hm', he⟩ := h1
        exact Or.inl ⟨m', by simp [hm'], he⟩
      · rcases saveObject_mem h1.1 with h2 | h2
        · exact Or.inl ⟨m, by simp, h2⟩
        · refine Or.inr ⟨h2.1, ?_⟩
          intro m' hm'
          rcases List.mem_cons.mp hm' with he | he
          · subst he; simpa using h2.2
          · exact h1.2 m' he

lemma destroyListAux_preserve {f : Store → Obj → Except String Store}
    (P : Store → Prop)
    (hf : ∀ s e t, e ∈ l → f s e = Except.ok t → P s → P t) :
    ∀ {s t : Store}, destroyListAux f s l = Except.ok t → P s → P t := by
  induction l with
  | nil =>
      intro s t h hp
      unfold destroyListAux at h
      cases h
      exact hp
  | cons e rest ih =>
      intro s t h hp
      unfold destroyListAux at h
      obtain ⟨s1, hs1, hrest⟩ := bindE_ok h
      exact ih (fun s' e' t' he' => hf s' e' t' (by simp [he'])) hrest
        (hf s e s1 (by simp) hs1 hp)

lemma destroyFuel_nextDbref :
    ∀ (n : Nat) {s : Store} {o : Obj} {t : Store},
      destroyFuel n s o = Except.ok t → t.nextDbref = s.nextDbref := by
  intro n
  induction n with
  | zero => intro s o t h; exact absurd h (by simp [destroyFuel])
  | succ n ih =>
      intro s o t h
      unfold destroyFuel at h
      obtain ⟨es, _, h⟩ := bindE_ok h
      obtain ⟨s1, hs1, h⟩ := bindE_ok h
      obtain ⟨ms, _, h⟩ := bindE_ok h
      have h1 : t.nextDbref = (clearZones s1 ms).nextDbref :=
        (destroyObject_spec h).2.2
      have h2 : s1.nextDbref = s.nextDbref :=
        destroyListAux_preserve (fun u => u.nextDbref = s.nextDbref)
          (fun s' e' t' _ hft hp => by
            show t'.nextDbref = s.nextDbref
            rw [ih hft]; exact hp) hs1 rfl
      rw [h1, clearZones_nextDbref, h2]

lemma destroy_nextDbref {s : Store} {o : Obj} {t : Store}
    (h : destroy s o = Except.ok t) : t.nextDbref = s.nextDbref :=
  destroyFuel_nextDbref 2 h

lemma runAssigned_lb :
    ∀ (ops : List StoreOp) (s : Store) (i : Nat),
      i ∈ runAssigned s ops → s.nextDbref ≤ i := by
  intro ops
  induction ops with
  | nil => intro s i h; simp [runAssigned] at h
  | cons op rest ih =>
      intro s i h
      cases op with
      | create t =>
          unfold runAssigned at h
          rcases List.mem_cons.mp h with he | he
          · simp [createObject] at he
            omega
          · have := ih _ i he
            have hn : (createObject s t).1.nextDbref = s.nextDbref + 1 := rfl
            omega
      | destroyOp o =>
          unfold runAssigned at h
          cases hd : destroy s o with
          | ok u =>
              rw [hd] at h
              have := ih u i h
              have := destroy_nextDbref hd
              omega
          | error m =>
              rw [hd] at h
              exact ih s i h

/-- C3: For every sequence of create/destroy operations on the Object
Store, the ids assigned by successive `create_object` calls are strictly
increasing integers, and no id is ever assigned twice, even when an object
with a lower id has been destroyed in between: destruction never touches
the `__next_dbref` counter and creation always assigns the counter value
and increments it. -/
theorem create_ids_strictly_increasing_never_reused :
    ∀ (s : Store) (ops : List StoreOp),
      List.Pairwise (fun i j => i < j) (runAssigned s ops) ∧
        (runAssigned s ops).Nodup := by
  have hpair : ∀ (ops : List StoreOp) (s : Store),
      List.Pairwise (fun i j => i < j) (runAssigned s ops) := by
    intro ops
    induction ops with
    | nil => intro s; simp [runAssigned]
    | cons op rest ih =>
        intro s
        cases op with
        | create t =>
            unfold runAssigned
            refine List.Pairwise.cons ?_ (ih _)
            intro j hj
            have hlb := runAssigned_lb rest _ j hj
            have hn : (createObject s t).1.nextDbref = s.nextDbref + 1 := rfl
            have ho : (createObject s t).2.oid = s.nextDbref := rfl
            omega
        | destroyOp o =>
            unfold runAssigned
            cases hd : destroy s o with
            | ok u => exact ih u
            | error m => exact ih s
  intro s ops
  refine ⟨hpair ops s, ?_⟩
  exact List.Pairwise.imp (fun hlt => Nat.ne_of_lt hlt) (hpair ops s)

/-- C9: For every object whose `base_type` is `exit`,
`find_exits_linked_to_obj` returns the empty list regardless of the
store's contents — the guard "Exits can't be linked to one another"
short-circuits before the scan, so destroying an exit never cascades to
other exits. -/
theorem exits_of_exit_never_linked (s : Store) (o : Obj)
    (h : o.baseType = "exit") : findExitsLinkedToObj s o = Except.ok [] := by
  unfold findExitsLinkedToObj
  rw [if_pos (by simpa using h)]

/-- Witness for C9: a store holding an exit whose `destination_id` is the
id of another exit still yields no linked exits for that exit. -/
theorem exits_of_exit_never_linked_witness :
    findExitsLinkedToObj
      { objs := [{ oid := 10, name := "east", aliases := ["e"], baseType := "exit" },
                 { oid := 11, name := "west", aliases := ["w"], baseType := "exit",
                   destinationId := some 10 }], nextDbref := 12 }
      { oid := 10, name := "east", aliases := ["e"], baseType := "exit" }
      = Except.ok [] :=
  exits_of_exit_never_linked _ _ rfl

lemma findNameOrAliasMatchAux_alias {scorer : String → String → Nat}
    {desc : String} :
    ∀ (objects : List Obj) (best : Nat) (result : Option Obj),
      (∃ o ∈ objects, aliasHit desc o = true) →
      findNameOrAliasMatchAux scorer desc objects best result =
        objects.find? (fun o => aliasHit desc o) := by
  intro objects
  induction objects with
  | nil => intro best result h; simp at h
  | cons o rest ih =>
      intro best result h
      by_cases ho : aliasHit desc o = true
      · unfold findNameOrAliasMatchAux
        rw [if_pos ho, List.find?_cons_of_pos _ ho]
      · have hrest : ∃ o' ∈ rest, aliasHit desc o' = true := by
          obtain ⟨o', ho', ha⟩ := h
          rcases List.mem_cons.mp ho' with he | he
          · subst he; exact absurd ha ho
          · exact ⟨o', he, ha⟩
        unfold findNameOrAliasMatchAux
        rw [if_neg ho, List.find?_cons_of_neg _ (by simpa using ho)]
        show (if scorer desc o.name > 50 ∧ scorer desc o.name > best
              then findNameOrAliasMatchAux scorer desc rest (scorer desc o.name) (some o)
              else findNameOrAliasMatchAux scorer desc rest best result) =
          List.find? (fun o => aliasHit desc o) rest
        by_cases hv : scorer desc o.name > 50 ∧ scorer desc o.name > best
        · rw [if_pos hv]; exact ih _ _ hrest
        · rw [if_neg hv]; exact ih _ _ hrest

/-- C7: In `_find_name_or_alias_match`, if any object of the collection
has an alias exactly equal (case-insensitively) to the search string, the
result is the first such object — the alias branch returns immediately
while fuzzy matches only accumulate, so the result does not depend on the
scorer (even a score of 100) and an alias match anywhere in the collection
always wins over every fuzzy name match. -/
theorem alias_match_beats_fuzzy (scorer : String → String → Nat)
    (objects : List Obj) (desc : String)
    (h : ∃ o ∈ objects, aliasHit desc o = true) :
    findNameOrAliasMatch scorer objects desc =
        objects.find? (fun o => aliasHit desc o) ∧
      ∃ o, objects.find? (fun o => aliasHit desc o) = some o ∧
        aliasHit desc o = true := by
  refine ⟨findNameOrAliasMatchAux_alias objects 0 none h, ?_⟩
  obtain ⟨o, ho, ha⟩ := h
  have hsome : (objects.find? (fun o => aliasHit desc o)).isSome := by
    rw [List.find?_isSome]
    exact ⟨o, ho, ha⟩
  cases hf : objects.find? (fun o => aliasHit desc o) with
  | none => rw [hf] at hsome; simp at hsome
  | some w => exact ⟨w, rfl, List.find?_some hf⟩

/-- Witness for C7: an object whose name scores 100 under the scorer comes
first, yet the later object with the exact alias is returned. -/
theorem alias_match_beats_fuzzy_witness :
    findNameOrAliasMatch (fun _ _ => 100)
      [{ oid := 20, name := "north face poster", aliases := [], baseType := "thing" },
       { oid := 21, name := "oak door", aliases := ["North"], baseType := "exit" }]
      "north" =
      List.find? (fun o => aliasHit "north" o)
        [{ oid := 20, name := "north face poster", aliases := [], baseType := "thing" },
         { oid := 21, name := "oak door", aliases := ["North"], baseType := "exit" }] ∧
    ∃ o, List.find? (fun o => aliasHit "north" o)
        [{ oid := 20, name := "north face poster", aliases := [], baseType := "thing" },
         { oid := 21, name := "oak door", aliases := ["North"], baseType := "exit" }]
        = some o ∧ aliasHit "north" o = true :=
  alias_match_beats_fuzzy (fun _ _ => 100) _ "north"
    ⟨{ oid := 21, name := "oak door", aliases := ["North"], baseType := "exit" },
      by simp, by decide⟩

example : findNameOrAliasMatch (fun _ _ => 100)
      [{ oid := 20, name := "north face poster", aliases := [], baseType := "thing" },
       { oid := 21, name := "oak door", aliases := ["North"], baseType := "exit" }]
      "north" = some { oid := 21, name := "oak door", aliases := ["North"], baseType := "exit" } := by decide

/-- C5: Command matching tries the tables in the fixed spec order — the
location's local admin table (admins only), the location's local table,
the global admin table (admins only), the global table — and the first
table yielding a match wins with no merging; in particular a verb
registered in both a per-location table and the global table executes the
per-location definition (whatever the global table holds), provided the
earlier admin-gated local admin table produced no match. -/
theorem command_lookup_fixed_order :
    (∀ (gat gt : CommandTable) (s : Store) (inv : Obj) (verb : String)
        (loc : Option Obj), getLocation s inv = Except.ok loc →
        matchUserInputToCommand gat gt s inv verb =
          Except.ok (specOrderedLookup gat gt loc inv verb)) ∧
    (∀ (gat gt : CommandTable) (s : Store) (inv : Obj) (verb : String)
        (l : Obj) (t : CommandTable) (c : CommandDef),
        getLocation s inv = Except.ok (some l) →
        l.localTable = some t →
        lookupCommand t verb = some c →
        (inv.isAdminF = true →
          l.localAdminTable.bind (fun u => lookupCommand u verb) = none) →
        matchUserInputToCommand gat gt s inv verb = Except.ok (some c)) := by
  have main : ∀ (gat gt : CommandTable) (s : Store) (inv : Obj) (verb : String)
      (loc : Option Obj), getLocation s inv = Except.ok loc →
      matchUserInputToCommand gat gt s inv verb =
        Except.ok (specOrderedLookup gat gt loc inv verb) := by
    intro gat gt s inv verb loc hloc
    unfold matchUserInputToCommand
    rw [bindE_ok_of hloc]
    unfold specOrderedLookup
    cases loc with
    | none =>
        cases hadm : inv.isAdminF <;>
          cases hga : lookupCommand gat verb <;>
            simp [hadm, hga]
    | some l =>
        cases hat : l.localAdminTable with
        | none =>
            cases hlt : l.localTable with
            | none =>
                cases hadm : inv.isAdminF <;>
                  cases hga : lookupCommand gat verb <;>
                    simp [hadm, hga, hat, hlt]
            | some t =>
                cases hl : lookupCommand t verb with
                | none =>
                    cases hadm : inv.isAdminF <;>
                      cases hga : lookupCommand gat verb <;>
                        simp [hadm, hga, hat, hlt, hl]
                | some c => simp [hat, hlt, hl]
        | some ta =>
            cases hadm : inv.isAdminF with
            | false =>
                cases hlt : l.localTable with
                | none =>
                    simp [hadm, hat, hlt]
                | some t =>
                    cases hl : lookupCommand t verb <;>
                      simp [hadm, hat, hlt, hl]
            | true =>
                cases hla : lookupCommand ta verb with
                | some c => simp [hadm, hat, hla]
                | none =>
                    cases hlt : l.localTable with
                    | none =>
                        cases hga : lookupCommand gat verb <;>
                          simp [hadm, hat, hla, hlt, hga]
                    | some t =>
                        cases hl : lookupCommand t verb <;>
                          cases hga : lookupCommand gat verb <;>
                            simp [hadm, hat, hla, hlt, hl, hga]
  refine ⟨main, ?_⟩
  intro gat gt s inv verb l t c hloc hlt hl hadm
  rw [main gat gt s inv verb (some l) hloc]
  unfold specOrderedLookup
  cases ha : inv.isAdminF with
  | false => simp [ha, hlt, hl]
  | true => simp [ha, hadm ha, hlt, hl]

/-- Witness for C5: the verb `look` is registered both in the location's
local table (as definition 1) and in the global table (as definition 2);
the per-location definition is invoked. -/
theorem command_lookup_fixed_order_witness :
    matchUserInputToCommand
      (CommandTable.mk []) (CommandTable.mk [{ cname := "look", caliases := [], cid := 2 }])
      { objs := [{ oid := 30, name := "bridge", aliases := [], baseType := "room",
                   localTable := some (CommandTable.mk
                     [{ cname := "look", caliases := [], cid := 1 }]) },
                 { oid := 31, name := "Sam", aliases := [], baseType := "player",
                   locationId := some 30 }], nextDbref := 32 }
      { oid := 31, name := "Sam", aliases := [], baseType := "player",
        locationId := some 30 }
      "look" = Except.ok (some { cname := "look", caliases := [], cid := 1 }) :=
  command_lookup_fixed_order.2 _ _ _ _ "look"
    { oid := 30, name := "bridge", aliases := [], baseType := "room",
      localTable := some (CommandTable.mk
        [{ cname := "look", caliases := [], cid := 1 }]) }
    (CommandTable.mk [{ cname := "look", caliases := [], cid := 1 }])
    { cname := "look", caliases := [], cid := 1 }
    (by decide) rfl (by decide) (fun h => by simp at h)

lemma bindE_err {α β : Type} {x : Except String α} {f : α → Except String β}
    {m : String} (h : (x >>= f) = Except.error m) :
    x = Except.error m ∨ ∃ a, x = Except.ok a ∧ f a = Except.error m := by
  cases x with
  | error e =>
      left
      have : (Except.error e : Except String β) = Except.error m := h
      cases this
      rfl
  | ok a => exact Or.inr ⟨a, rfl, by simpa [Bind.bind, Except.bind] using h⟩

lemma getObject_err {s : Store} {i : Nat} {m : String}
    (h : getObject s i = Except.error m) : m = "InvalidObjectId" := by
  unfold getObject at h
  cases hf : s.objs.find? (fun x => x.oid == i) <;> rw [hf] at h <;> simp_all

lemma getObjectByKey_err {s : Store} {key : String} {m : String}
    (h : getObjectByKey s key = Except.error m) : m = "InvalidObjectId" := by
  unfold getObjectByKey at h
  cases hf : s.objs.find? (fun x => toString x.oid == key) <;> rw [hf] at h <;> simp_all

lemma getLocation_err {s : Store} {o : Obj} {m : String}
    (h : getLocation s o = Except.error m) : m = "InvalidObjectId" := by
  unfold getLocation at h
  cases hl : o.locationId with
  | none => rw [hl] at h; simp at h
  | some l =>
      rw [hl] at h
      rcases bindE_err h with h1 | ⟨a, _, h2⟩
      · exact getObject_err h1
      · simp at h2

lemma contentsAux_err {s : Store} {i : Nat} {m : String} :
    ∀ {l : List Obj}, contentsAux s i l = Except.error m → m = "InvalidObjectId" := by
  intro l
  induction l with
  | nil => intro h; simp [contentsAux] at h
  | cons x rest ih =>
      intro h
      unfold contentsAux at h
      rcases bindE_err h with h1 | ⟨loc, _, h2⟩
      · exact getLocation_err h1
      · rcases bindE_err h2 with h3 | ⟨tail, _, h4⟩
        · exact ih h3
        · cases loc with
          | none => simp at h4
          | some w =>
              by_cases hw : (w.oid == i) = true <;> simp [hw] at h4

lemma findObjectIdMatch_err {s : Store} {inv : Obj} {desc : String} {m : String}
    (h : findObjectIdMatch s inv desc = Except.error m) : m = "InvalidObjectId" := by
  unfold findObjectIdMatch at h
  rcases bindE_err h with h1 | ⟨obj, _, h2⟩
  · exact getObjectByKey_err h1
  · by_cases ha : inv.isAdminF = true
    · simp [ha] at h2
    · rw [if_neg ha] at h2
      rcases bindE_err h2 with h3 | ⟨invLoc, _, h4⟩
      · exact getLocation_err h3
      · rcases bindE_err h4 with h5 | ⟨objLoc, _, h6⟩
        · cases invLoc with
          | some w => exact getLocation_err h5
          | none => simp at h5
        · cases invLoc with
          | some il =>
              cases objLoc with
              | some ol =>
                  by_cases hc : (il.oid == ol.oid || il.oid == obj.oid) = true <;>
                    simp [hc] at h6
              | none =>
                  by_cases hr : (obj.baseType == "room") = true
                  · rw [if_pos hr] at h6
                    by_cases hio : il.oid = obj.oid <;> simp [hio] at h6
                  · rw [if_neg hr] at h6; simp at h6
          | none =>
              cases objLoc with
              | some ol =>
                  by_cases hr : (obj.baseType == "room") = true
                  · rw [if_pos hr] at h6; simp at h6
                  · rw [if_neg hr] at h6; simp at h6
              | none =>
                  by_cases hr : (obj.baseType == "room") = true
                  · rw [if_pos hr] at h6; simp at h6
                  · rw [if_neg hr] at h6; simp at h6

lemma searchFallThrough_err {scorer : String → String → Nat} {s : Store}
    {inv : Obj} {desc : String} {m : String}
    (h : searchFallThrough scorer s inv desc = Except.error m) :
    m = "InvalidObjectId" := by
  unfold searchFallThrough at h
  by_cases hme : (pyLower desc == "me") = true
  · simp [hme] at h
  · rw [if_neg hme] at h
    by_cases hhere : (pyLower desc == "here") = true
    · rw [if_pos hhere] at h; exact getLocation_err h
    · rw [if_neg hhere] at h
      rcases bindE_err h with h3 | ⟨invLoc, _, h4⟩
      · exact getLocation_err h3
      · rcases bindE_err h4 with h5 | ⟨nm, _, h6⟩
        · cases invLoc with
          | some l =>
              rcases bindE_err h5 with h7 | ⟨cont, _, h8⟩
              · exact contentsAux_err h7
              · simp at h8
          | none => simp at h5
        · cases nm with
          | some w => simp at h6
          | none =>
              rcases bindE_err h6 with h7 | ⟨cont, _, h8⟩
              · exact contentsAux_err h7
              · simp at h8

lemma contextualObjectSearch_err {scorer : String → String → Nat} {s : Store}
    {inv : Obj} {descRaw : String} {m : String}
    (h : contextualObjectSearch scorer s inv descRaw = Except.error m) :
    m = "InvalidObjectId" := by
  unfold contextualObjectSearch at h
  by_cases he : (pyStrip descRaw).data.isEmpty = true
  · rw [if_pos he] at h; simp at h
  · rw [if_neg he] at h
    have hchar : ∃ c, charAtE (pyStrip descRaw) 0 = Except.ok c := by
      cases hd : (pyStrip descRaw).data with
      | nil => rw [hd] at he; simp at he
      | cons c cs =>
          refine ⟨c, ?_⟩
          unfold charAtE
          rw [hd]
          rfl
    obtain ⟨c0, hc0⟩ := hchar
    rw [bindE_ok_of hc0] at h
    by_cases hs : (c0 == '#') = true
    · rw [if_pos hs] at h
      rcases bindE_err h with h1 | ⟨fstep, _, h2⟩
      · exact findObjectIdMatch_err h1
      · cases fstep with
        | some o => simp at h2
        | none => exact searchFallThrough_err h2
    · rw [if_neg hs] at h
      exact searchFallThrough_err h

/-- C10: `contextual_object_search` returns `None` rather than raising for
every input that is empty or whitespace-only (the `if not desc` guard),
and since the `desc[0] == '#'` sigil test runs only behind that guard, no
input string makes the search raise an out-of-bounds `IndexError`. -/
theorem contextual_search_whitespace_safe :
    (∀ (scorer : String → String → Nat) (s : Store) (inv : Obj) (d : String),
        d.data.all isPySpace = true →
        contextualObjectSearch scorer s inv d = Except.ok none) ∧
    (∀ (scorer : String → String → Nat) (s : Store) (inv : Obj) (d : String),
        contextualObjectSearch scorer s inv d ≠ Except.error "IndexError") := by
  constructor
  · intro scorer s inv d hws
    have hdrop : d.data.dropWhile isPySpace = [] := by
      rw [List.dropWhile_eq_nil_iff]
      intro x hx
      exact (List.all_eq_true.mp hws) x hx
    have hstrip : (pyStrip d).data = [] := by
      unfold pyStrip
      simp [hdrop]
    unfold contextualObjectSearch
    rw [if_pos (by simp [hstrip])]
  · intro scorer s inv d h
    have := contextualObjectSearch_err h
    simp at this

/-- Witness for C10: the search on `" \t "` yields no match against an
arbitrary store, and the search on `"#"`-free junk raises nothing. -/
theorem contextual_search_whitespace_safe_witness :
    contextualObjectSearch (fun _ _ => 0)
      { objs := [{ oid := 40, name := "hall", aliases := [], baseType := "room" }],
        nextDbref := 41 }
      { oid := 40, name := "hall", aliases := [], baseType := "room" }
      " \t " = Except.ok none ∧
    contextualObjectSearch (fun _ _ => 0)
      { objs := [{ oid := 40, name := "hall", aliases := [], baseType := "room" }],
        nextDbref := 41 }
      { oid := 40, name := "hall", aliases := [], baseType := "room" }
      "" ≠ Except.error "IndexError" :=
  ⟨contextual_search_whitespace_safe.1 _ _ _ " \t " (by decide),
   contextual_search_whitespace_safe.2 _ _ _ ""⟩

/-- A concrete world for the `#id` visibility analysis: two rooms, a
non-admin player and a statue aliased `#5` in the first, the target thing
with id 5 in the second, and an admin in the second. -/
def vwRoomA : Obj := { oid := 1, name := "Lobby", aliases := [], baseType := "room" }

def vwStatue : Obj :=
  { oid := 3, name := "statue", aliases := ["#5"], baseType := "thing",
    locationId := some 1 }

def vwPlayer : Obj :=
  { oid := 2, name := "Pat", aliases := [], baseType := "player",
    locationId := some 1 }

def vwRoomB : Obj := { oid := 4, name := "Vault", aliases := [], baseType := "room" }

def vwTarget : Obj :=
  { oid := 5, name := "gem", aliases := [], baseType := "thing",
    locationId := some 4 }

def vwAdmin : Obj :=
  { oid := 6, name := "Root", aliases := [], baseType := "player",
    locationId := some 4, isAdminF := true }

def vwStore : Store :=
  { objs := [vwRoomA, vwStatue, vwPlayer, vwRoomB, vwTarget, vwAdmin],
    nextDbref := 7 }

/-- Counterexample for C6 as stated: non-admin Pat is in the Lobby, the
target (id 5) is in the Vault and is not Pat's location, yet
`contextual_object_search("#5")` does not return `None`: the failed id
match falls through to alias matching, which returns the Lobby statue
aliased `#5` — for every scorer, since the alias branch never consults
the fuzzy score. -/
theorem nonadmin_id_search_not_none_counterexample :
    (fun scorer : String → String → Nat =>
        contextualObjectSearch scorer vwStore vwPlayer "#5") =
      (fun _ => Except.ok (some vwStatue)) :=
  funext (fun _ => rfl)

/-- C6 (amended): for a non-admin invoker, the absolute-id step
`_find_object_id_match` yields no match whenever the target's location
differs from the invoker's location and the target is not the invoker's
current location (the overall search may still return a different,
coincidentally name/alias-matching object by falling through); an admin
invoker resolves any existing id at that step. -/
theorem nonadmin_id_match_denied :
    (∀ (s : Store) (inv : Obj) (desc : String) (obj : Obj)
        (invLoc objLoc : Option Obj),
        inv.isAdminF = false →
        getObjectByKey s (pyDrop desc 1) = Except.ok obj →
        getLocation s inv = Except.ok invLoc →
        getLocation s obj = Except.ok objLoc →
        Option.map (fun x => x.oid) invLoc ≠ Option.map (fun x => x.oid) objLoc →
        (∀ il, invLoc = some il → il.oid ≠ obj.oid) →
        findObjectIdMatch s inv desc = Except.ok none) ∧
    (∀ (s : Store) (inv : Obj) (desc : String) (obj : Obj),
        inv.isAdminF = true →
        getObjectByKey s (pyDrop desc 1) = Except.ok obj →
        findObjectIdMatch s inv desc = Except.ok (some obj)) := by
  constructor
  · intro s inv desc obj invLoc objLoc hadm hobj hloc hobjloc hdiff hnotloc
    unfold findObjectIdMatch
    rw [bindE_ok_of hobj, if_neg (by simp [hadm]), bindE_ok_of hloc]
    cases invLoc with
    | some il =>
        rw [bindE_ok_of hobjloc]
        cases objLoc with
        | some ol =>
            have h1 : il.oid ≠ ol.oid := by
              intro he
              exact hdiff (by simp [he])
            have h2 : il.oid ≠ obj.oid := hnotloc il rfl
            simp [h1, h2]
        | none =>
            have h2 : il.oid ≠ obj.oid := hnotloc il rfl
            by_cases hr : obj.baseType = "room"
            · simp [hr, h2]
            · simp [hr]
    | none =>
        rw [bindE_ok_of (rfl : (Except.ok none : Except String (Option Obj)) = Except.ok none)]
        by_cases hr : obj.baseType = "room"
        · simp [hr]
        · simp [hr]
  · intro s inv desc obj hadm hobj
    unfold findObjectIdMatch
    rw [bindE_ok_of hobj, if_pos (by simp [hadm])]

/-- Witness for C6 (amended): in the concrete world, the non-admin's id
lookup of `#5` yields no match while the admin's resolves the target. -/
theorem nonadmin_id_match_denied_witness :
    findObjectIdMatch vwStore vwPlayer "#5" = Except.ok none ∧
      findObjectIdMatch vwStore vwAdmin "#5" = Except.ok (some vwTarget) :=
  ⟨nonadmin_id_match_denied.1 vwStore vwPlayer "#5" vwTarget
      (some vwRoomA) (some vwRoomB) rfl (by decide) (by decide) (by decide)
      (by decide) (fun il h => by cases h; decide),
   nonadmin_id_match_denied.2 vwStore vwAdmin "#5" vwTarget rfl (by decide)⟩

lemma contentsAux_sound {s : Store} {i : Nat} :
    ∀ {l cs : List Obj}, contentsAux s i l = Except.ok cs →
      ∀ y ∈ cs, y ∈ l ∧ y.locationId = some i := by
  intro l
  induction l with
  | nil =>
      intro cs h y hy
      unfold contentsAux at h
      cases h
      simp at hy
  | cons x rest ih =>
      intro cs h y hy
      unfold contentsAux at h
      obtain ⟨loc, hloc, h2⟩ := bindE_ok h
      obtain ⟨tail, htail, h3⟩ := bindE_ok h2
      cases loc with
      | none =>
          cases h3
          obtain ⟨hmem, hli⟩ := ih htail y hy
          exact ⟨by simp [hmem], hli⟩
      | some w =>
          have h3' : (if (w.oid == i) = true then Except.ok (x :: tail)
              else Except.ok tail) = Except.ok cs := h3
          by_cases hw : (w.oid == i) = true
          · rw [if_pos hw] at h3'
            cases h3'
            rcases List.mem_cons.mp hy with he | he
            · subst he
              unfold getLocation at hloc
              cases hxl : y.locationId with
              | none => rw [hxl] at hloc; simp at hloc
              | some lid =>
                  rw [hxl] at hloc
                  obtain ⟨a, ha, hb⟩ := bindE_ok hloc
                  have haw : a = w := by simpa using hb
                  have h4 : a.oid = lid := getObject_oid ha
                  have h5 : a.oid = i := by rw [haw]; simpa using hw
                  refine ⟨by simp, ?_⟩
                  have hli : lid = i := by omega
                  rw [hli]
            · obtain ⟨hmem, hli⟩ := ih htail y he
              exact ⟨by simp [hmem], hli⟩
          · rw [if_neg hw] at h3'
            cases h3'
            obtain ⟨hmem, hli⟩ := ih htail y hy
            exact ⟨by simp [hmem], hli⟩

lemma contentsAux_complete {s : Store} {i : Nat} :
    ∀ {l cs : List Obj}, contentsAux s i l = Except.ok cs →
      ∀ y ∈ l, y.locationId = some i → y ∈ cs := by
  intro l
  induction l with
  | nil =>
      intro cs h y hy
      simp at hy
  | cons x rest ih =>
      intro cs h y hy hyl
      unfold contentsAux at h
      obtain ⟨loc, hloc, h2⟩ := bindE_ok h
      obtain ⟨tail, htail, h3⟩ := bindE_ok h2
      rcases List.mem_cons.mp hy with he | he
      · subst he
        unfold getLocation at hloc
        rw [hyl] at hloc
        obtain ⟨a, ha, hb⟩ := bindE_ok hloc
        have hla : loc = some a := by simpa using hb.symm
        subst hla
        have hai : a.oid = i := getObject_oid ha
        have h3' : (if (a.oid == i) = true then Except.ok (y :: tail)
            else Except.ok tail) = Except.ok cs := h3
        rw [if_pos (by simpa using hai)] at h3'
        cases h3'
        simp
      · have hytail : y ∈ tail := ih htail y he hyl
        cases loc with
        | none => cases h3; exact hytail
        | some w =>
            have h3' : (if (w.oid == i) = true then Except.ok (x :: tail)
                else Except.ok tail) = Except.ok cs := h3
            by_cases hw : (w.oid == i) = true
            · rw [if_pos hw] at h3'; cases h3'; simp [hytail]
            · rw [if_neg hw] at h3'; cases h3'; exact hytail

lemma setLocation_oid (o dest : Obj) : (setLocation o dest).oid = o.oid := by
  unfold setLocation; split <;> rfl

lemma getObject_saveObject {s : Store} {x : Obj} (h : x.oid ∈ oidList s) :
    getObject (saveObject s x) x.oid = Except.ok x := by
  have hmem : x ∈ (saveObject s x).objs := saveObject_mem_self h
  have hsome : ((saveObject s x).objs.find? (fun y => y.oid == x.oid)).isSome := by
    rw [List.find?_isSome]
    exact ⟨x, hmem, by simp⟩
  cases hf : (saveObject s x).objs.find? (fun y => y.oid == x.oid) with
  | none => rw [hf] at hsome; simp at hsome
  | some w =>
      have hw : w = x :=
        saveObject_eq_of_oid (List.mem_of_find?_eq_some hf)
          (by simpa using List.find?_some hf)
      unfold getObject
      rw [hf, hw]

/-- A two-object world for the move invariant: one room and one player
standing in it. -/
def mvRoom : Obj := { oid := 1, name := "Cell", aliases := [], baseType := "room" }

def mvPlayer : Obj :=
  { oid := 2, name := "Max", aliases := [], baseType := "player",
    locationId := some 1 }

def mvStore : Store := { objs := [mvRoom, mvPlayer], nextDbref := 3 }

/-- Counterexample for C4 as stated: `move_to` into the mover's current
location completes without error (nothing in `move_to` rejects it), yet
afterwards the mover still appears in the old location's `contentsOf`
result — the old location and the destination coincide. -/
theorem move_to_same_location_counterexample :
    moveTo mvStore mvPlayer mvRoom = Except.ok mvStore ∧
      getObjectContents mvStore mvRoom = Except.ok [mvPlayer] :=
  ⟨rfl, rfl⟩

/-- C4 (amended): for every non-Room mover that is the store's instance,
if `move_to(destination)` completes without error and the destination
differs from the old location, then the mover's stored `location_id`
equals the destination's id, the mover appears in the destination's
`contentsOf` result and no longer appears in the old location's.
(A Room mover is excluded because `set_location` silently ignores rooms;
a mover without a location never completes, as the `None` old location
raises before any mutation.) -/
theorem move_to_invariant (s : Store) (mover dest old : Obj) (s' : Store)
    (hm : getObject s mover.oid = Except.ok mover)
    (hnroom : mover.baseType ≠ "room")
    (hold : getLocation s mover = Except.ok (some old))
    (hdiff : old.oid ≠ dest.oid)
    (hmv : moveTo s mover dest = Except.ok s') :
    (getObject s' mover.oid = Except.ok (setLocation mover dest) ∧
      (setLocation mover dest).locationId = some dest.oid) ∧
    (∀ l, getObjectContents s' dest = Except.ok l →
      ∃ y ∈ l, y.oid = mover.oid) ∧
    (∀ l, getObjectContents s' old = Except.ok l →
      ∀ y ∈ l, y.oid ≠ mover.oid) := by
  have hs' : s' = saveObject s (setLocation mover dest) := by
    unfold moveTo at hmv
    rw [bindE_ok_of hold] at hmv
    obtain ⟨c1, hc1, hmv2⟩ := bindE_ok hmv
    obtain ⟨c2, hc2, hmv3⟩ := bindE_ok hmv2
    cases hmv3
    rfl
  have hmemoid : mover.oid ∈ oidList s :=
    List.mem_map.mpr ⟨mover, getObject_mem hm, rfl⟩
  have hoid' : (setLocation mover dest).oid = mover.oid := setLocation_oid mover dest
  have hloc' : (setLocation mover dest).locationId = some dest.oid := by
    unfold setLocation
    rw [if_neg (by simpa using hnroom)]
  refine ⟨⟨?_, hloc'⟩, ?_, ?_⟩
  · rw [hs']
    have := getObject_saveObject (x := setLocation mover dest) (by rw [hoid']; exact hmemoid)
    rw [hoid'] at this
    exact this
  · intro l hl
    have hmem' : setLocation mover dest ∈ s'.objs := by
      rw [hs']
      exact saveObject_mem_self (by rw [hoid']; exact hmemoid)
    exact ⟨setLocation mover dest,
      contentsAux_complete hl _ hmem' hloc', hoid'⟩
  · intro l hl y hy hyoid
    obtain ⟨hymem, hyloc⟩ := contentsAux_sound hl y hy
    have hyeq : y = setLocation mover dest := by
      rw [hs'] at hymem
      exact saveObject_eq_of_oid hymem (by rw [hoid', hyoid])
    rw [hyeq, hloc'] at hyloc
    exact hdiff (by injection hyloc with h; exact h.symm)

def mvYard : Obj := { oid := 3, name := "Yard", aliases := [], baseType := "room" }

def mvStoreB : Store := { objs := [mvRoom, mvPlayer, mvYard], nextDbref := 4 }

/-- Witness for C4 (amended): moving the player from the Cell into a
second room updates its location and the two contents listings. -/
theorem move_to_invariant_witness :
    (getObject (saveObject mvStoreB (setLocation mvPlayer mvYard)) mvPlayer.oid =
        Except.ok (setLocation mvPlayer mvYard) ∧
      (setLocation mvPlayer mvYard).locationId = some mvYard.oid) ∧
    (∀ l, getObjectContents (saveObject mvStoreB (setLocation mvPlayer mvYard))
        mvYard = Except.ok l → ∃ y ∈ l, y.oid = mvPlayer.oid) ∧
    (∀ l, getObjectContents (saveObject mvStoreB (setLocation mvPlayer mvYard))
        mvRoom = Except.ok l → ∀ y ∈ l, y.oid ≠ mvPlayer.oid) :=
  move_to_invariant mvStoreB mvPlayer mvYard mvRoom _
    (by decide) (by decide) (by decide) (by decide) rfl

lemma zoneAux_sound {s : Store} {i : Nat} :
    ∀ {l ms : List Obj}, zoneAux s i l = Except.ok ms →
      ∀ m ∈ ms, m ∈ l ∧ m.zoneId = some i := by
  intro l
  induction l with
  | nil =>
      intro ms h m hm
      unfold zoneAux at h
      cases h
      simp at hm
  | cons x rest ih =>
      intro ms h m hm
      unfold zoneAux at h
      obtain ⟨z, hz, h2⟩ := bindE_ok h
      obtain ⟨tail, htail, h3⟩ := bindE_ok h2
      cases z with
      | none =>
          cases h3
          obtain ⟨hmem, hzi⟩ := ih htail m hm
          exact ⟨by simp [hmem], hzi⟩
      | some w =>
          have h3' : (if (w.oid == i) = true then Except.ok (x :: tail)
              else Except.ok tail) = Except.ok ms := h3
          by_cases hw : (w.oid == i) = true
          · rw [if_pos hw] at h3'
            cases h3'
            rcases List.mem_cons.mp hm with he | he
            · subst he
              unfold getZone at hz
              cases hxz : m.zoneId with
              | none => rw [hxz] at hz; simp at hz
              | some zid =>
                  rw [hxz] at hz
                  obtain ⟨a, ha, hb⟩ := bindE_ok hz
                  have haw : a = w := by simpa using hb
                  have h4 : a.oid = zid := getObject_oid ha
                  have h5 : a.oid = i := by rw [haw]; simpa using hw
                  refine ⟨by simp, ?_⟩
                  have hzi : zid = i := by omega
                  rw [hzi]
            · obtain ⟨hmem, hzi⟩ := ih htail m he
              exact ⟨by simp [hmem], hzi⟩
          · rw [if_neg hw] at h3'
            cases h3'
            obtain ⟨hmem, hzi⟩ := ih htail m hm
            exact ⟨by simp [hmem], hzi⟩

lemma zoneAux_complete {s : Store} {i : Nat} :
    ∀ {l ms : List Obj}, zoneAux s i l = Except.ok ms →
      ∀ y ∈ l, y.zoneId = some i → y ∈ ms := by
  intro l
  induction l with
  | nil => intro ms h y hy; simp at hy
  | cons x rest ih =>
      intro ms h y hy hyz
      unfold zoneAux at h
      obtain ⟨z, hz, h2⟩ := bindE_ok h
      obtain ⟨tail, htail, h3⟩ := bindE_ok h2
      rcases List.mem_cons.mp hy with he | he
      · subst he
        unfold getZone at hz
        rw [hyz] at hz
        obtain ⟨a, ha, hb⟩ := bindE_ok hz
        have hza : z = some a := by simpa using hb.symm
        subst hza
        have hai : a.oid = i := getObject_oid ha
        have h3' : (if (a.oid == i) = true then Except.ok (y :: tail)
            else Except.ok tail) = Except.ok ms := h3
        rw [if_pos (by simpa using hai)] at h3'
        cases h3'
        simp
      · have hytail : y ∈ tail := ih htail y he hyz
        cases z with
        | none => cases h3; exact hytail
        | some w =>
            have h3' : (if (w.oid == i) = true then Except.ok (x :: tail)
                else Except.ok tail) = Except.ok ms := h3
            by_cases hw : (w.oid == i) = true
            · rw [if_pos hw] at h3'; cases h3'; simp [hytail]
            · rw [if_neg hw] at h3'; cases h3'; exact hytail

lemma zoneAux_resolves {s : Store} {i : Nat} :
    ∀ {l ms : List Obj}, zoneAux s i l = Except.ok ms →
      ∀ y ∈ l, ∀ zid, y.zoneId = some zid →
        ∃ w, getObject s zid = Except.ok w := by
  intro l
  induction l with
  | nil => intro ms h y hy; simp at hy
  | cons x rest ih =>
      intro ms h y hy zid hyz
      unfold zoneAux at h
      obtain ⟨z, hz, h2⟩ := bindE_ok h
      obtain ⟨tail, htail, _⟩ := bindE_ok h2
      rcases List.mem_cons.mp hy with he | he
      · subst he
        unfold getZone at hz
        rw [hyz] at hz
        obtain ⟨a, ha, _⟩ := bindE_ok hz
        exact ⟨a, ha⟩
      · exact ih htail y he zid hyz

lemma zoneAux_empty {s : Store} {i : Nat} :
    ∀ {l : List Obj},
      (∀ y ∈ l, y.zoneId = none ∨
        ∃ zid w, y.zoneId = some zid ∧ getObject s zid = Except.ok w ∧ w.oid ≠ i) →
      zoneAux s i l = Except.ok [] := by
  intro l
  induction l with
  | nil => intro _; rfl
  | cons x rest ih =>
      intro h
      have hrest := ih (fun y hy => h y (by simp [hy]))
      unfold zoneAux
      rcases h x (by simp) with hx | ⟨zid, w, hxz, hw, hwi⟩
      · have hz : getZone s x = Except.ok none := by
          unfold getZone; rw [hx]
        rw [bindE_ok_of hz, bindE_ok_of hrest]
      · have hz : getZone s x = Except.ok (some w) := by
          unfold getZone
          rw [hxz]
          show (getObject s zid >>= fun v => Except.ok (some v)) = Except.ok (some w)
          rw [bindE_ok_of hw]
        rw [bindE_ok_of hz, bindE_ok_of hrest]
        show (if (w.oid == i) = true
            then (Except.ok (x :: []) : Except String (List Obj))
            else Except.ok []) = Except.ok []
        rw [if_neg (by simpa using hwi)]

lemma cleared_zone_empty {s : Store} {o : Obj} {ms : List Obj}
    (h : findObjectsInZone s o = Except.ok ms) :
    findObjectsInZone (clearZones s ms) o = Except.ok [] := by
  have hsub : ∀ m ∈ ms, m ∈ s.objs := fun m hm => (zoneAux_sound h m hm).1
  have hoids : ∀ m ∈ ms, m.oid ∈ oidList s := fun m hm =>
    List.mem_map.mpr ⟨m, hsub m hm, rfl⟩
  have hOid : oidList (clearZones s ms) = oidList s := clearZones_oidList hoids
  unfold findObjectsInZone
  apply zoneAux_empty
  intro y hy
  rcases clearZones_mem hy with ⟨m, _, he⟩ | ⟨hys, hnot⟩
  · subst he; exact Or.inl rfl
  · cases hyz : y.zoneId with
    | none => exact Or.inl rfl
    | some zid =>
        right
        obtain ⟨w, hw⟩ := zoneAux_resolves h y hys zid hyz
        have hwoid : w.oid = zid := getObject_oid hw
        have hzidmem : zid ∈ oidList s := by
          rw [← hwoid]
          exact List.mem_map.mpr ⟨w, getObject_mem hw, rfl⟩
        obtain ⟨w', hw', hw'oid⟩ := getObject_ok_of_mem (by rw [hOid]; exact hzidmem)
        refine ⟨zid, w', rfl, hw', ?_⟩
        rw [hw'oid]
        intro hzo
        have hymem : y ∈ ms := zoneAux_complete h y hys (by rw [hyz, hzo])
        exact hnot y hymem rfl

/-- C2 (spec-modelled): For every object that still has at least one zone
member, the non-cascading destroy path fails with
`ObjectHasZoneMembersError` before touching the store; destruction through
that path succeeds only when the object has no zone members, and after the
zone is explicitly emptied (`emptyZone`) it proceeds exactly as the §3
cascading destroy. -/
theorem destroy_requires_zone_emptied :
    (∀ (s : Store) (o : Obj) (ms : List Obj),
        findObjectsInZone s o = Except.ok ms → ms ≠ [] →
        destroyNonCascading s o = Except.error "ObjectHasZoneMembers") ∧
    (∀ (s : Store) (o : Obj) (t : Store),
        destroyNonCascading s o = Except.ok t →
        findObjectsInZone s o = Except.ok []) ∧
    (∀ (s : Store) (o : Obj) (s' : Store) (ms : List Obj),
        emptyZone s o = Except.ok (s', ms) →
        destroyNonCascading s' o = destroy s' o) := by
  refine ⟨?_, ?_, ?_⟩
  · intro s o ms h hne
    unfold destroyNonCascading
    rw [bindE_ok_of h, if_neg (by simpa using hne)]
  · intro s o t h
    unfold destroyNonCascading at h
    cases hf : findObjectsInZone s o with
    | error m => rw [hf] at h; simp [Bind.bind, Except.bind] at h
    | ok ms =>
        rw [bindE_ok_of hf] at h
        by_cases he : ms.isEmpty = true
        · cases ms with
          | nil => rfl
          | cons a b => simp at he
        · rw [if_neg he] at h; simp at h
  · intro s o s' ms h
    unfold emptyZone at h
    obtain ⟨ms0, hms0, h2⟩ := bindE_ok h
    have hp : clearZones s ms0 = s' ∧ ms0 = ms := by
      constructor <;> [skip; skip] <;> cases h2 <;> rfl
    obtain ⟨hs', hmseq⟩ := hp
    subst hs'
    have hemp : findObjectsInZone (clearZones s ms0) o = Except.ok [] :=
      cleared_zone_empty hms0
    unfold destroyNonCascading
    rw [bindE_ok_of hemp]
    rfl

/-- A zone master with one member, for the destroy-path witnesses. -/
def zmMaster : Obj := { oid := 1, name := "District", aliases := [], baseType := "room" }

def zmMember : Obj :=
  { oid := 2, name := "shack", aliases := [], baseType := "thing", zoneId := some 1 }

def zmStore : Store := { objs := [zmMaster, zmMember], nextDbref := 3 }

/-- Witness for C2: with the member zoned to the master, the non-cascading
destroy errors; after `emptyZone` it coincides with the cascading destroy
(and then succeeds). -/
theorem destroy_requires_zone_emptied_witness :
    destroyNonCascading zmStore zmMaster = Except.error "ObjectHasZoneMembers" ∧
      destroyNonCascading (clearZones zmStore [zmMember]) zmMaster =
        destroy (clearZones zmStore [zmMember]) zmMaster ∧
      findObjectsInZone (clearZones zmStore [zmMember]) zmMaster = Except.ok [] :=
  ⟨destroy_requires_zone_emptied.1 zmStore zmMaster [zmMember] rfl (by simp),
   destroy_requires_zone_emptied.2.2 zmStore zmMaster
     (clearZones zmStore [zmMember]) [zmMember] rfl,
   destroy_requires_zone_emptied.2.1 (clearZones zmStore [zmMember]) zmMaster
     { objs := (clearZones zmStore [zmMember]).objs.filter (fun x => x.oid != 1),
       nextDbref := 3 } rfl⟩

lemma getDestination_ok_some {s : Store} {o : Obj} {w : Obj} {d : Nat}
    (hd : o.destinationId = some d) (hw : getObject s d = Except.ok w) :
    getDestination s o = Except.ok (some w) := by
  unfold getDestination
  rw [hd]
  show (getObject s d >>= fun v => Except.ok (some v)) = Except.ok (some w)
  rw [bindE_ok_of hw]

lemma linkedAux_sound {s : Store} {i : Nat} :
    ∀ {l es : List Obj}, linkedAux s i l = Except.ok es →
      ∀ e ∈ es, e ∈ l ∧ e.baseType = "exit" ∧ e.destinationId = some i := by
  intro l
  induction l with
  | nil =>
      intro es h e he
      unfold linkedAux at h
      cases h
      simp at he
  | cons x rest ih =>
      intro es h e he
      unfold linkedAux at h
      by_cases hx : (x.baseType == "exit") = true
      · rw [if_pos hx] at h
        obtain ⟨d, hd, h2⟩ := bindE_ok h
        obtain ⟨tail, htail, h3⟩ := bindE_ok h2
        cases d with
        | none =>
            cases h3
            obtain ⟨hm, hb, hdi⟩ := ih htail e he
            exact ⟨by simp [hm], hb, hdi⟩
        | some w =>
            have h3' : (if (w.oid == i) = true then Except.ok (x :: tail)
                else Except.ok tail) = Except.ok es := h3
            by_cases hw : (w.oid == i) = true
            · rw [if_pos hw] at h3'
              cases h3'
              rcases List.mem_cons.mp he with hee | hee
              · subst hee
                refine ⟨by simp, by simpa using hx, ?_⟩
                unfold getDestination at hd
                cases hxd : e.destinationId with
                | none => rw [hxd] at hd; simp at hd
                | some did =>
                    rw [hxd] at hd
                    obtain ⟨a, ha, hb⟩ := bindE_ok hd
                    have haw : a = w := by simpa using hb
                    have h4 : a.oid = did := getObject_oid ha
                    have h5 : a.oid = i := by rw [haw]; simpa using hw
                    have : did = i := by omega
                    rw [this]
              · obtain ⟨hm, hb, hdi⟩ := ih htail e hee
                exact ⟨by simp [hm], hb, hdi⟩
            · rw [if_neg hw] at h3'
              cases h3'
              obtain ⟨hm, hb, hdi⟩ := ih htail e he
              exact ⟨by simp [hm], hb, hdi⟩
      · rw [if_neg hx] at h
        obtain ⟨hm, hb, hdi⟩ := ih h e he
        exact ⟨by simp [hm], hb, hdi⟩

lemma linkedAux_complete {s : Store} {i : Nat} :
    ∀ {l es : List Obj}, linkedAux s i l = Except.ok es →
      ∀ y ∈ l, y.baseType = "exit" → y.destinationId = some i → y ∈ es := by
  intro l
  induction l with
  | nil => intro es h y hy; simp at hy
  | cons x rest ih =>
      intro es h y hy hyb hyd
      unfold linkedAux at h
      rcases List.mem_cons.mp hy with he | he
      · subst he
        rw [if_pos (by simpa using hyb)] at h
        obtain ⟨d, hd, h2⟩ := bindE_ok h
        obtain ⟨tail, htail, h3⟩ := bindE_ok h2
        unfold getDestination at hd
        rw [hyd] at hd
        obtain ⟨a, ha, hb⟩ := bindE_ok hd
        have hda : d = some a := by simpa using hb.symm
        subst hda
        have hai : a.oid = i := getObject_oid ha
        have h3' : (if (a.oid == i) = true then Except.ok (y :: tail)
            else Except.ok tail) = Except.ok es := h3
        rw [if_pos (by simpa using hai)] at h3'
        cases h3'
        simp
      · by_cases hx : (x.baseType == "exit") = true
        · rw [if_pos hx] at h
          obtain ⟨d, hd, h2⟩ := bindE_ok h
          obtain ⟨tail, htail, h3⟩ := bindE_ok h2
          have hytail : y ∈ tail := ih htail y he hyb hyd
          cases d with
          | none => cases h3; exact hytail
          | some w =>
              have h3' : (if (w.oid == i) = true then Except.ok (x :: tail)
                  else Except.ok tail) = Except.ok es := h3
              by_cases hw : (w.oid == i) = true
              · rw [if_pos hw] at h3'; cases h3'; simp [hytail]
              · rw [if_neg hw] at h3'; cases h3'; exact hytail
        · rw [if_neg hx] at h
          exact ih h y he hyb hyd

lemma destroyFuel_succ_parts {n : Nat} {s : Store} {o : Obj} {t : Store}
    (h : destroyFuel (n + 1) s o = Except.ok t) :
    ∃ es s1 ms, findExitsLinkedToObj s o = Except.ok es ∧
      destroyListAux (destroyFuel n) s es = Except.ok s1 ∧
      findObjectsInZone s1 o = Except.ok ms ∧
      destroyObject (clearZones s1 ms) o.oid = Except.ok t := by
  unfold destroyFuel at h
  obtain ⟨es, hes, h2⟩ := bindE_ok h
  obtain ⟨s1, hs1, h3⟩ := bindE_ok h2
  obtain ⟨ms, hms, h4⟩ := bindE_ok h3
  exact ⟨es, s1, ms, hes, hs1, hms, h4⟩

lemma destroyFuel_exit_parts {n : Nat} {s : Store} {e : Obj} {t : Store}
    (hx : e.baseType = "exit") (h : destroyFuel (n + 1) s e = Except.ok t) :
    ∃ ms, findObjectsInZone s e = Except.ok ms ∧
      destroyObject (clearZones s ms) e.oid = Except.ok t := by
  obtain ⟨es, s1, ms, hes, hs1, hms, h4⟩ := destroyFuel_succ_parts h
  have hese : es = [] := by
    have : findExitsLinkedToObj s e = Except.ok [] :=
      exits_of_exit_never_linked s e hx
    rw [this] at hes
    cases hes
    rfl
  subst hese
  have hs1e : s1 = s := by
    unfold destroyListAux at hs1
    cases hs1
    rfl
  subst hs1e
  exact ⟨ms, hms, h4⟩

lemma exit_destroy_oids {n : Nat} {s : Store} {e : Obj} {t : Store}
    (hx : e.baseType = "exit") (h : destroyFuel (n + 1) s e = Except.ok t) :
    oidList t = (oidList s).filter (fun j => j != e.oid) := by
  obtain ⟨ms, hms, hdo⟩ := destroyFuel_exit_parts hx h
  have hoids : ∀ m ∈ ms, m.oid ∈ oidList s := fun m hm =>
    List.mem_map.mpr ⟨m, (zoneAux_sound hms m hm).1, rfl⟩
  rw [destroyObject_oidList hdo, clearZones_oidList hoids]

lemma destroyList_exits_oids {n : Nat} :
    ∀ {es : List Obj} {s t : Store}, (∀ e ∈ es, e.baseType = "exit") →
      destroyListAux (destroyFuel (n + 1)) s es = Except.ok t →
      oidList t = (oidList s).filter (fun j => es.all (fun e => j != e.oid)) := by
  intro es
  induction es with
  | nil =>
      intro s t _ h
      unfold destroyListAux at h
      cases h
      simp
  | cons e rest ih =>
      intro s t hex h
      unfold destroyListAux at h
      obtain ⟨s1, hs1, hrest⟩ := bindE_ok h
      have h1 : oidList s1 = (oidList s).filter (fun j => j != e.oid) :=
        exit_destroy_oids (hex e (by simp)) hs1
      have h2 : oidList t = (oidList s1).filter (fun j => rest.all (fun x => j != x.oid)) :=
        ih (fun x hx => hex x (by simp [hx])) hrest
      rw [h2, h1, List.filter_filter]
      apply List.filter_congr
      intro j _
      simp [List.all_cons, Bool.and_comm]

lemma destroy_oids {s : Store} {o : Obj} {es : List Obj} {s' : Store}
    (hes : findExitsLinkedToObj s o = Except.ok es)
    (hd : destroy s o = Except.ok s') :
    oidList s' = ((oidList s).filter (fun j => es.all (fun e => j != e.oid))).filter
      (fun j => j != o.oid) := by
  obtain ⟨es2, s1, ms, hes2, hs1, hms, h4⟩ := destroyFuel_succ_parts hd
  rw [hes] at hes2
  have hese : es = es2 := Except.ok.inj hes2
  rw [← hese] at hs1
  have hexits : ∀ e ∈ es, e.baseType = "exit" := by
    intro e he
    unfold findExitsLinkedToObj at hes
    by_cases ho : (o.baseType == "exit") = true
    · rw [if_pos ho] at hes
      cases hes
      simp at he
    · rw [if_neg ho] at hes
      exact (linkedAux_sound hes e he).2.1
  have h1 : oidList s1 = (oidList s).filter (fun j => es.all (fun e => j != e.oid)) :=
    destroyList_exits_oids hexits hs1
  have hoids : ∀ m ∈ ms, m.oid ∈ oidList s1 := fun m hm =>
    List.mem_map.mpr ⟨m, (zoneAux_sound hms m hm).1, rfl⟩
  rw [destroyObject_oidList h4, clearZones_oidList hoids, h1]

lemma filter_ne_length {l : List Nat} :
    l.Nodup → ∀ {i : Nat}, i ∈ l →
      (l.filter (fun j => j != i)).length + 1 = l.length := by
  induction l with
  | nil => intro _ i hi; simp at hi
  | cons a rest ih =>
      intro hnd i hi
      have hnd' : rest.Nodup := hnd.of_cons
      have hanotin : a ∉ rest := (List.nodup_cons.mp hnd).1
      rcases List.mem_cons.mp hi with he | he
      · have hall : rest.filter (fun j => j != i) = rest := by
          apply List.filter_eq_self.mpr
          intro b hb
          simp only [bne_iff_ne, ne_eq, decide_eq_true_eq]
          intro hbi
          exact hanotin ((hbi.trans he) ▸ hb)
        have hcond : (a != i) = false := by simp [he]
        simp [List.filter_cons, hcond, hall]
      · have hne : (a != i) = true := by
          simp only [bne_iff_ne, ne_eq, decide_eq_true_eq]
          intro hc
          exact hanotin (hc ▸ he)
        have hih := ih hnd' he
        simp [List.filter_cons, hne]
        omega

lemma store_length_eq_oidList (s : Store) : s.objs.length = (oidList s).length := by
  unfold oidList
  simp

lemma exit_destroy_len {n : Nat} {s : Store} {e : Obj} {t : Store}
    (hx : e.baseType = "exit") (h : destroyFuel (n + 1) s e = Except.ok t)
    (hnd : (oidList s).Nodup) :
    t.objs.length + 1 = s.objs.length ∧ (oidList t).Nodup := by
  obtain ⟨ms, hms, hdo⟩ := destroyFuel_exit_parts hx h
  have hoids : ∀ m ∈ ms, m.oid ∈ oidList s := fun m hm =>
    List.mem_map.mpr ⟨m, (zoneAux_sound hms m hm).1, rfl⟩
  have hceq : oidList (clearZones s ms) = oidList s := clearZones_oidList hoids
  obtain ⟨_, hemem, _⟩ := destroyObject_spec hdo
  rw [hceq] at hemem
  have hto : oidList t = (oidList s).filter (fun j => j != e.oid) :=
    exit_destroy_oids hx h
  constructor
  · rw [store_length_eq_oidList, store_length_eq_oidList, hto]
    exact filter_ne_length hnd hemem
  · rw [hto]
    exact hnd.filter _

lemma destroyList_exits_len {n : Nat} :
    ∀ {es : List Obj} {s t : Store}, (∀ e ∈ es, e.baseType = "exit") →
      destroyListAux (destroyFuel (n + 1)) s es = Except.ok t →
      (oidList s).Nodup →
      t.objs.length + es.length = s.objs.length ∧ (oidList t).Nodup := by
  intro es
  induction es with
  | nil =>
      intro s t _ h hnd
      unfold destroyListAux at h
      cases h
      exact ⟨rfl, hnd⟩
  | cons e rest ih =>
      intro s t hex h hnd
      unfold destroyListAux at h
      obtain ⟨s1, hs1, hrest⟩ := bindE_ok h
      obtain ⟨hl1, hn1⟩ := exit_destroy_len (hex e (by simp)) hs1 hnd
      obtain ⟨hl2, hn2⟩ := ih (fun x hx => hex x (by simp [hx])) hrest hn1
      refine ⟨?_, hn2⟩
      simp only [List.length_cons]
      omega

lemma destroy_len {s : Store} {o : Obj} {es : List Obj} {s' : Store}
    (hes : findExitsLinkedToObj s o = Except.ok es)
    (hd : destroy s o = Except.ok s')
    (hnd : (oidList s).Nodup) :
    s'.objs.length + (es.length + 1) = s.objs.length ∧ (oidList s').Nodup := by
  obtain ⟨es2, s1, ms, hes2, hs1, hms, h4⟩ := destroyFuel_succ_parts hd
  rw [hes] at hes2
  have hese : es = es2 := Except.ok.inj hes2
  rw [← hese] at hs1
  have hexits : ∀ e ∈ es, e.baseType = "exit" := by
    intro e he
    unfold findExitsLinkedToObj at hes
    by_cases ho : (o.baseType == "exit") = true
    · rw [if_pos ho] at hes; cases hes; simp at he
    · rw [if_neg ho] at hes
      exact (linkedAux_sound hes e he).2.1
  obtain ⟨hl1, hn1⟩ := destroyList_exits_len hexits hs1 hnd
  have hoids : ∀ m ∈ ms, m.oid ∈ oidList s1 := fun m hm =>
    List.mem_map.mpr ⟨m, (zoneAux_sound hms m hm).1, rfl⟩
  have hceq : oidList (clearZones s1 ms) = oidList s1 := clearZones_oidList hoids
  obtain ⟨_, homem, _⟩ := destroyObject_spec h4
  rw [hceq] at homem
  have hto : oidList s' = (oidList s1).filter (fun j => j != o.oid) := by
    rw [destroyObject_oidList h4, hceq]
  constructor
  · have hfil := filter_ne_length hn1 homem
    have e1 : s'.objs.length = (oidList s').length := store_length_eq_oidList s'
    have e2 : s1.objs.length = (oidList s1).length := store_length_eq_oidList s1
    have e3 : s.objs.length = (oidList s).length := store_length_eq_oidList s
    have e4 : (oidList s').length =
        ((oidList s1).filter (fun j => j != o.oid)).length := by rw [hto]
    omega
  · rw [hto]
    exact hn1.filter _

lemma clear_filter_zone_free {s : Store} {i : Nat} {ms : List Obj}
    (h : zoneAux s i s.objs = Except.ok ms) :
    ∀ y ∈ (clearZones s ms).objs, y.zoneId ≠ some i := by
  intro y hy
  rcases clearZones_mem hy with ⟨m, _, he⟩ | ⟨hys, hnot⟩
  · subst he; simp
  · intro hyz
    have hymem : y ∈ ms := zoneAux_complete h y hys hyz
    exact hnot y hymem rfl

lemma destroyFuel_zone_free_self {n : Nat} {s : Store} {o : Obj} {t : Store}
    (h : destroyFuel (n + 1) s o = Except.ok t) :
    ∀ y ∈ t.objs, y.zoneId ≠ some o.oid := by
  obtain ⟨es, s1, ms, _, _, hms, h4⟩ := destroyFuel_succ_parts h
  intro y hy
  exact clear_filter_zone_free hms y (destroyObject_subset h4 hy)

lemma clearZones_zone_ne {s : Store} {ms : List Obj} {r : Nat}
    (hp : ∀ y ∈ s.objs, y.zoneId ≠ some r) :
    ∀ y ∈ (clearZones s ms).objs, y.zoneId ≠ some r := by
  intro y hy
  rcases clearZones_mem hy with ⟨m, _, he⟩ | ⟨hys, _⟩
  · subst he; simp
  · exact hp y hys

lemma destroyFuel_zone_ne {r : Nat} :
    ∀ (n : Nat) {s : Store} {o : Obj} {t : Store},
      destroyFuel n s o = Except.ok t →
      (∀ y ∈ s.objs, y.zoneId ≠ some r) →
      ∀ y ∈ t.objs, y.zoneId ≠ some r := by
  intro n
  induction n with
  | zero => intro s o t h; exact absurd h (by simp [destroyFuel])
  | succ n ih =>
      intro s o t h hp
      obtain ⟨es, s1, ms, _, hs1, _, h4⟩ := destroyFuel_succ_parts h
      have hp1 : ∀ y ∈ s1.objs, y.zoneId ≠ some r :=
        destroyListAux_preserve (fun u => ∀ y ∈ u.objs, y.zoneId ≠ some r)
          (fun s' e' t' _ hft hpp => ih hft hpp) hs1 hp
      intro y hy
      exact clearZones_zone_ne hp1 y (destroyObject_subset h4 hy)

lemma destroyList_zone_free_all {n : Nat} :
    ∀ {es : List Obj} {s t : Store},
      destroyListAux (destroyFuel (n + 1)) s es = Except.ok t →
      ∀ e ∈ es, ∀ y ∈ t.objs, y.zoneId ≠ some e.oid := by
  intro es
  induction es with
  | nil => intro s t _ e he; simp at he
  | cons e0 rest ih =>
      intro s t h e he
      unfold destroyListAux at h
      obtain ⟨s1, hs1, hrest⟩ := bindE_ok h
      rcases List.mem_cons.mp he with hee | hee
      · subst hee
        have hfree : ∀ y ∈ s1.objs, y.zoneId ≠ some e.oid :=
          destroyFuel_zone_free_self hs1
        exact destroyListAux_preserve (fun u => ∀ y ∈ u.objs, y.zoneId ≠ some e.oid)
          (fun s' e' t' _ hft hpp => destroyFuel_zone_ne (n + 1) hft hpp)
          hrest hfree
      · exact ih hrest e hee

/-- Provenance of a surviving object through a destroy: it is either an
original store instance or one with its zone un-set (no step of `destroy`
mutates anything else). -/
def Derives (x y : Obj) : Prop := y = x ∨ y = { x with zoneId := none }

lemma derives_refl (x : Obj) : Derives x x := Or.inl rfl

lemma derives_clear {x m : Obj} (h : Derives x m) :
    Derives x { m with zoneId := none } := by
  rcases h with h | h
  · subst h; exact Or.inr rfl
  · subst h; exact Or.inr rfl

lemma derives_fields {x y : Obj} (h : Derives x y) :
    y.oid = x.oid ∧ y.destinationId = x.destinationId ∧ y.baseType = x.baseType := by
  rcases h with h | h <;> subst h <;> exact ⟨rfl, rfl, rfl⟩

lemma clearZones_prov {so s : Store} {ms : List Obj}
    (hp : ∀ y ∈ s.objs, ∃ x ∈ so.objs, Derives x y)
    (hms : ∀ m ∈ ms, ∃ x ∈ so.objs, Derives x m) :
    ∀ y ∈ (clearZones s ms).objs, ∃ x ∈ so.objs, Derives x y := by
  induction ms generalizing s with
  | nil => exact hp
  | cons m rest ih =>
      unfold clearZones
      simp only [List.foldl_cons]
      have hp1 : ∀ y ∈ (saveObject s { m with zoneId := none }).objs,
          ∃ x ∈ so.objs, Derives x y := by
        intro y hy
        rcases saveObject_mem hy with he | ⟨hys, _⟩
        · obtain ⟨x, hx, hdx⟩ := hms m (by simp)
          exact ⟨x, hx, he ▸ derives_clear hdx⟩
        · exact hp y hys
      exact ih hp1 (fun m' hm' => hms m' (by simp [hm']))

lemma destroyFuel_prov {so : Store} :
    ∀ (n : Nat) {s : Store} {o : Obj} {t : Store},
      destroyFuel n s o = Except.ok t →
      (∀ y ∈ s.objs, ∃ x ∈ so.objs, Derives x y) →
      ∀ y ∈ t.objs, ∃ x ∈ so.objs, Derives x y := by
  intro n
  induction n with
  | zero => intro s o t h; exact absurd h (by simp [destroyFuel])
  | succ n ih =>
      intro s o t h hp
      obtain ⟨es, s1, ms, _, hs1, hms, h4⟩ := destroyFuel_succ_parts h
      have hp1 : ∀ y ∈ s1.objs, ∃ x ∈ so.objs, Derives x y :=
        destroyListAux_preserve (fun u => ∀ y ∈ u.objs, ∃ x ∈ so.objs, Derives x y)
          (fun s' e' t' _ hft hpp => ih hft hpp) hs1 hp
      have hmsub : ∀ m ∈ ms, ∃ x ∈ so.objs, Derives x m := fun m hm =>
        hp1 m (zoneAux_sound hms m hm).1
      intro y hy
      exact clearZones_prov hp1 hmsub y (destroyObject_subset h4 hy)

lemma destroy_prov {s : Store} {o : Obj} {s' : Store}
    (hd : destroy s o = Except.ok s') :
    ∀ y ∈ s'.objs, ∃ x ∈ s.objs, Derives x y :=
  destroyFuel_prov 2 hd (fun y hy => ⟨y, hy, derives_refl y⟩)

lemma nodup_map_inj {α β : Type} {f : α → β} :
    ∀ {l : List α}, (l.map f).Nodup →
      ∀ {x y : α}, x ∈ l → y ∈ l → f x = f y → x = y := by
  intro l
  induction l with
  | nil => intro _ x y hx; simp at hx
  | cons a rest ih =>
      intro hnd x y hx hy hf
      simp only [List.map_cons, List.nodup_cons] at hnd
      rcases List.mem_cons.mp hx with hex | hex <;>
        rcases List.mem_cons.mp hy with hey | hey
      · rw [hex, hey]
      · exfalso
        apply hnd.1
        rw [← hex, hf]
        exact List.mem_map.mpr ⟨y, hey, rfl⟩
      · exfalso
        apply hnd.1
        rw [← hey, ← hf]
        exact List.mem_map.mpr ⟨x, hex, rfl⟩
      · exact ih hnd.2 hex hey hf

lemma nodup_map_oid_inj {s : Store} (hnd : (oidList s).Nodup) {x y : Obj}
    (hx : x ∈ s.objs) (hy : y ∈ s.objs) (hoid : x.oid = y.oid) : x = y :=
  nodup_map_inj hnd hx hy hoid

/-- The store keeps one instance per id (dict keys are unique). -/
def oidNodup (s : Store) : Prop := (oidList s).Nodup

/-- Destination well-formedness from §3: `destination_id` is an exit-only
field, and an exit's destination may not itself be an exit (enforced by
`@link` / `@open` before mutation). -/
def wfDest (s : Store) : Prop :=
  ∀ x ∈ s.objs, ∀ d, x.destinationId = some d →
    x.baseType = "exit" ∧ ∀ w ∈ s.objs, w.oid = d → w.baseType ≠ "exit"

lemma findExits_char {s : Store} {o : Obj} {es : List Obj}
    (hes : findExitsLinkedToObj s o = Except.ok es) :
    (o.baseType = "exit" ∧ es = []) ∨
      (o.baseType ≠ "exit" ∧ linkedAux s o.oid s.objs = Except.ok es) := by
  unfold findExitsLinkedToObj at hes
  by_cases ho : (o.baseType == "exit") = true
  · rw [if_pos ho] at hes
    cases hes
    exact Or.inl ⟨by simpa using ho, rfl⟩
  · rw [if_neg ho] at hes
    exact Or.inr ⟨by simpa using ho, hes⟩

/-- Counterexample for C1 as stated: a zone master with `N = 0` linked
exits and `M = 1` zone member.  The claim demands `N+M+1 = 2` objects
removed, leaving the store empty; `destroy` in fact removes only the
master — the member (id 2) survives with its zone cleared. -/
theorem destroy_zone_member_survives_counterexample :
    (destroy
        { objs := [zmMaster, zmMember], nextDbref := 3 } zmMaster).map
      (fun t => t.objs.map (fun x => x.oid)) = Except.ok [2] := by decide

/-- C1 (amended): on a well-formed store (unique ids, `destination_id`
only on exits, no exit linked to an exit), `destroy()` on an object with N
linked exits removes exactly those N exits and the object itself (N+1
objects, id-for-id), and afterwards no surviving object has a
`destination_id` or `zone_id` referring to any removed object; each zone
member that is not itself a removed exit survives with its `zone_id`
cleared. -/
theorem destroy_cascade_exact
    (s : Store) (o : Obj) (es : List Obj) (s' : Store)
    (hnd : oidNodup s) (hwd : wfDest s) (hmem : o ∈ s.objs)
    (hes : findExitsLinkedToObj s o = Except.ok es)
    (hd : destroy s o = Except.ok s') :
    (∀ i, i ∈ oidList s' ↔ (i ∈ oidList s ∧ i ≠ o.oid ∧ ∀ e ∈ es, i ≠ e.oid)) ∧
    s'.objs.length + (es.length + 1) = s.objs.length ∧
    (∀ y ∈ s'.objs, ∀ r, (r = o.oid ∨ ∃ e ∈ es, r = e.oid) →
        y.zoneId ≠ some r ∧ y.destinationId ≠ some r) ∧
    (∀ m ∈ s.objs, m.zoneId = some o.oid → m.oid ≠ o.oid →
        (∀ e ∈ es, m.oid ≠ e.oid) → { m with zoneId := none } ∈ s'.objs) := by
  have hmemIff : ∀ i, i ∈ oidList s' ↔
      (i ∈ oidList s ∧ i ≠ o.oid ∧ ∀ e ∈ es, i ≠ e.oid) := by
    intro i
    rw [destroy_oids hes hd]
    simp only [List.mem_filter, List.all_eq_true, bne_iff_ne, ne_eq,
      decide_eq_true_eq]
    constructor
    · rintro ⟨⟨hin, hes'⟩, hno⟩
      exact ⟨hin, hno, hes'⟩
    · rintro ⟨hin, hno, hes'⟩
      exact ⟨⟨hin, hes'⟩, hno⟩
  obtain ⟨es2, s1, ms, hes2, hs1, hms, h4⟩ := destroyFuel_succ_parts hd
  rw [hes] at hes2
  have hese : es = es2 := Except.ok.inj hes2
  rw [← hese] at hs1
  have hz1 : ∀ y ∈ s'.objs, y.zoneId ≠ some o.oid :=
    destroyFuel_zone_free_self hd
  have hz2 : ∀ e ∈ es, ∀ y ∈ s'.objs, y.zoneId ≠ some e.oid := by
    intro e he y hy
    have hfree1 : ∀ y ∈ s1.objs, y.zoneId ≠ some e.oid :=
      fun y hy => destroyList_zone_free_all hs1 e he y hy
    exact clearZones_zone_ne hfree1 y (destroyObject_subset h4 hy)
  refine ⟨hmemIff, (destroy_len hes hd hnd).1, ?_, ?_⟩
  · intro y hy r hr
    have hzone : y.zoneId ≠ some r := by
      rcases hr with he | ⟨e, he, hre⟩
      · rw [he]; exact hz1 y hy
      · rw [hre]; exact hz2 e he y hy
    refine ⟨hzone, ?_⟩
    intro hyd
    obtain ⟨x, hxs, hder⟩ := destroy_prov hd y hy
    obtain ⟨hoid, hdest, hbase⟩ := derives_fields hder
    have hxd : x.destinationId = some r := by rw [← hdest]; exact hyd
    obtain ⟨hxexit, hnoexit⟩ := hwd x hxs r hxd
    have hymem : y.oid ∈ oidList s' := List.mem_map.mpr ⟨y, hy, rfl⟩
    obtain ⟨_, hyno, hynoes⟩ := (hmemIff y.oid).mp hymem
    rcases hr with he | ⟨e, he, hre⟩
    · rcases findExits_char hes with ⟨hoexit, _⟩ | ⟨honot, hlinked⟩
      · exact hnoexit o hmem (by rw [he]) hoexit
      · have hxes : x ∈ es := by
          apply linkedAux_complete hlinked x hxs hxexit
          rw [hxd, he]
        exact hynoes x hxes (by rw [hoid])
    · rcases findExits_char hes with ⟨hoexit, hese'⟩ | ⟨honot, hlinked⟩
      · subst hese'
        simp at he
      · obtain ⟨hemem, heexit, _⟩ := linkedAux_sound hlinked e he
        exact hnoexit e hemem (by rw [hre]) heexit
  · intro m hm hmz hmno hmnoes
    have hmoid : m.oid ∈ oidList s' := by
      rw [hmemIff m.oid]
      exact ⟨List.mem_map.mpr ⟨m, hm, rfl⟩, hmno, hmnoes⟩
    obtain ⟨y, hy, hyoid⟩ := List.mem_map.mp hmoid
    obtain ⟨x, hxs, hder⟩ := destroy_prov hd y hy
    obtain ⟨hoid, _, _⟩ := derives_fields hder
    have hxm : x = m := nodup_map_oid_inj hnd hxs hm (by rw [← hoid, hyoid])
    subst hxm
    rcases hder with hym | hym
    · exfalso
      apply hz1 y hy
      rw [hym, hmz]
    · rw [← hym]
      exact hy

def exRoomA : Obj := { oid := 1, name := "Plaza", aliases := [], baseType := "room" }

def exRoomB : Obj := { oid := 2, name := "Annex", aliases := [], baseType := "room" }

def exGate : Obj :=
  { oid := 3, name := "gate", aliases := ["g"], baseType := "exit",
    locationId := some 2, destinationId := some 1 }

def exHut : Obj :=
  { oid := 4, name := "hut", aliases := [], baseType := "thing", zoneId := some 1 }

def exStore : Store := { objs := [exRoomA, exRoomB, exGate, exHut], nextDbref := 5 }

def exAfter : Store :=
  { objs := [exRoomB, { exHut with zoneId := none }], nextDbref := 5 }

/-- Witness for C1 (amended): destroying the Plaza (one linked exit, one
zone member) removes exactly the exit and the Plaza, the member hut
survives with its zone cleared, and no surviving reference dangles. -/
theorem destroy_cascade_exact_witness :
    (∀ i, i ∈ oidList exAfter ↔
        (i ∈ oidList exStore ∧ i ≠ exRoomA.oid ∧ ∀ e ∈ [exGate], i ≠ e.oid)) ∧
    exAfter.objs.length + ([exGate].length + 1) = exStore.objs.length ∧
    (∀ y ∈ exAfter.objs, ∀ r, (r = exRoomA.oid ∨ ∃ e ∈ [exGate], r = e.oid) →
        y.zoneId ≠ some r ∧ y.destinationId ≠ some r) ∧
    (∀ m ∈ exStore.objs, m.zoneId = some exRoomA.oid → m.oid ≠ exRoomA.oid →
        (∀ e ∈ [exGate], m.oid ≠ e.oid) →
        { m with zoneId := none } ∈ exAfter.objs) :=
  destroy_cascade_exact exStore exRoomA [exGate] exAfter
    (by unfold oidNodup; decide)
    (by
      intro x hx d hd
      fin_cases hx
      · exact absurd hd (by simp [exRoomA])
      · exact absurd hd (by simp [exRoomB])
      · have hd1 : d = 1 := by
          have := hd.symm
          simpa [exGate] using this
        subst hd1
        exact ⟨rfl, by decide⟩
      · exact absurd hd (by simp [exHut]))
    (by decide) (by decide) (by decide)

/-- C8 (code bug): for an unexpected (non-`CommandError`) failure, the
invoker does receive the generic critical-error notice and the traceback,
and the generic log line is written — but the identity log line calls
`invoker.get_appearance_name(None, force_admin_view=True)`, a keyword the
`BaseObject.get_appearance_name(self, invoker)` signature rejects, so that
errback raises `TypeError` before logging the invoker's identity, and the
process-level sink (`log.err`) receives the replacing `TypeError` instead
of the original failure: the error is not logged with the invoker's
identity and the original failure never reaches the diagnostic sink. -/
theorem unexpected_failure_identity_log_lost :
    commandFailureChain vwPlayer false ""
        "ZeroDivisionError: integer division by zero" =
      [Effect.emitTo 2 "ERROR: A critical error has occurred. Please notify the staff.",
       Effect.emitTo 2 "ZeroDivisionError: integer division by zero",
       Effect.logErr "Command handler encountered an error",
       Effect.logErr ("console: " ++ appearanceKwargError)] ∧
    Effect.logErr ("Invoker: " ++ vwPlayer.name) ∉
      commandFailureChain vwPlayer false ""
        "ZeroDivisionError: integer division by zero" ∧
    (handleOtherErrors vwPlayer
        "ZeroDivisionError: integer division by zero").2 ≠
      "ZeroDivisionError: integer division by zero" := by
  refine ⟨by decide, by decide, by decide⟩

example :
    (destroy
      { objs := [{ oid := 1, name := "Z", aliases := [], baseType := "room" },
                 { oid := 2, name := "B", aliases := [], baseType := "thing",
                   locationId := some 1, zoneId := some 1 }], nextDbref := 3 }
      { oid := 1, name := "Z", aliases := [], baseType := "room" }).map
      (fun t => t.objs.map (fun x => x.oid)) = Except.ok [2] := by decide
